import Mathlib

/-!
# MentionsManager: rule matching and block/notify dispatch

A shallow embedding of `manager.go`.  The program polls a mentions feed,
tests every mention from a non-friend, non-follower against two tables of
regular expressions and, on the first hit, blocks the author, posts a
notice from a second account and optionally mails the administrator.

Modelling conventions.

* Go strings that reach the program (tweet text, handles, config values)
  are valid UTF-8, so they are Lean `String`s and a Go rune is a `Char`.
* `int64` user ids are `Int`; the program only compares them.
* Every call that leaves the process (Twitter API, SMTP, terminal) is
  recorded, in program order, in `State.trace`; its answer is supplied by
  a `World`, which may depend on everything recorded so far.
* `log.Fatalf` ends the process: the function ends with `Outcome.fatal`,
  which keeps the message and the state reached, and every caller passes
  it on without doing anything else.
* `range` over a Go map visits the entries in an order the language leaves
  unspecified; the order of each loop is supplied by the `World`, and is
  only known to be a permutation of the entries.
-/

namespace MentionsManager

/-! ## The fragment of `regexp` the rule tables use -/

/-- Parsed regular expression: the operators of Go's `regexp/syntax` that
occur in the rule tables. -/
inductive Regex where
  | emptyMatch : Regex
  | literal (r : Char) (foldCase : Bool) : Regex
  | anyCharNotNL : Regex
  | beginText : Regex
  | endText : Regex
  | concat (a b : Regex) : Regex
  | alternate (a b : Regex) : Regex
  | plus (a : Regex) : Regex
  deriving DecidableEq, Repr

/-- Go's `unicode.SimpleFold` on the case orbits of the ASCII letters:
`A..Z` and `a..z` swap, except that `k` and `s` step to the Kelvin sign
U+212A and the long s U+017F, which step back to `K` and `S`.  Runes
outside these orbits are left alone (the patterns are ASCII). -/
def simpleFold (r : Char) : Char :=
  if r = 'k' then Char.ofNat 0x212A
  else if r = 's' then Char.ofNat 0x017F
  else if r = Char.ofNat 0x212A then 'K'
  else if r = Char.ofNat 0x017F then 'S'
  else if 'A'.toNat ≤ r.toNat ∧ r.toNat ≤ 'Z'.toNat then Char.ofNat (r.toNat + 32)
  else if 'a'.toNat ≤ r.toNat ∧ r.toNat ≤ 'z'.toNat then Char.ofNat (r.toNat - 32)
  else r

/-- Does the rune `r` of the text match the pattern rune `r0`?  With
`foldCase` the whole `SimpleFold` orbit of `r0` is accepted (`MatchRunePos`
walks the orbit until it is back at `r0`; an ASCII orbit has at most three
members). -/
def matchRune (r0 : Char) (foldCase : Bool) (r : Char) : Bool :=
  r == r0 ||
    (foldCase && (r == simpleFold r0 || r == simpleFold (simpleFold r0)))

/-- Positions reachable from `front` by one or more rounds of `step`,
trying at most `fuel` rounds. -/
def iterate (step : Nat → List Nat) : Nat → List Nat → List Nat
  | 0, _ => []
  | fuel + 1, front =>
    let next := front.flatMap step
    next ++ iterate step fuel next

/-- All positions at which a match of the expression that starts at
position `i` of `text` can end. -/
def Regex.ends (text : List Char) : Regex → Nat → List Nat
  | .emptyMatch, i => [i]
  | .literal r0 foldCase, i =>
    match text.get? i with
    | some r => if matchRune r0 foldCase r then [i + 1] else []
    | none => []
  | .anyCharNotNL, i =>
    match text.get? i with
    | some r => if r = '\n' then [] else [i + 1]
    | none => []
  | .beginText, i => if i = 0 then [i] else []
  | .endText, i => if i = text.length then [i] else []
  | .concat a b, i => (a.ends text i).flatMap (b.ends text)
  | .alternate a b, i => a.ends text i ++ b.ends text i
  | .plus a, i => iterate (a.ends text) (text.length + 1) [i]

/-- Unanchored search: is there a match starting anywhere in the text? -/
def Regex.find (re : Regex) (text : List Char) : Bool :=
  (List.range (text.length + 1)).any (fun i => !(re.ends text i).isEmpty)

/-- One open group of the parser: the alternatives already closed by `|`
and the pieces of the alternative being read, both newest first. -/
structure Frame where
  alts : List Regex
  seq : List Regex
  deriving Repr

/-- Concatenation of pieces given newest first. -/
def concatRev : List Regex → Regex
  | [] => .emptyMatch
  | [r] => r
  | r :: rs => .concat (concatRev rs) r

/-- Alternation of `last` after the alternatives `alts` (newest first). -/
def alternateRev (last : Regex) : List Regex → Regex
  | [] => last
  | r :: rs => alternateRev (.alternate r last) rs

/-- The expression of a finished group. -/
def Frame.close (f : Frame) : Regex :=
  alternateRev (concatRev f.seq) f.alts

/-- Runes with a meaning in the pattern syntax that the tables never use. -/
def unsupportedMeta : List Char := ['*', '?', '[', ']', '{', '}', '\\']

/-- Operator-stack parser for the pattern syntax, one rune at a time:
`cur` is the innermost open group, `stack` the groups around it. -/
def parseLoop (foldCase : Bool) : List Char → Frame → List Frame → Except String Regex
  | [], cur, [] => .ok cur.close
  | [], _, _ :: _ => .error "missing closing )"
  | c :: cs, cur, stack =>
    if c = '(' then
      match cs with
      | '?' :: _ => .error "unsupported group flags"
      | _ => parseLoop foldCase cs ⟨[], []⟩ (cur :: stack)
    else if c = ')' then
      match stack with
      | [] => .error "unexpected )"
      | parent :: stack' =>
        parseLoop foldCase cs ⟨parent.alts, cur.close :: parent.seq⟩ stack'
    else if c = '|' then
      parseLoop foldCase cs ⟨concatRev cur.seq :: cur.alts, []⟩ stack
    else if c = '+' then
      match cur.seq with
      | [] => .error "missing argument to repetition operator"
      | .plus _ :: _ => .error "invalid nested repetition operator"
      | r :: rs => parseLoop foldCase cs ⟨cur.alts, .plus r :: rs⟩ stack
    else if c = '.' then
      parseLoop foldCase cs ⟨cur.alts, .anyCharNotNL :: cur.seq⟩ stack
    else if c = '^' then
      parseLoop foldCase cs ⟨cur.alts, .beginText :: cur.seq⟩ stack
    else if c = '$' then
      parseLoop foldCase cs ⟨cur.alts, .endText :: cur.seq⟩ stack
    else if c ∈ unsupportedMeta ∨ 128 ≤ c.toNat then
      .error "unsupported pattern syntax"
    else
      parseLoop foldCase cs ⟨cur.alts, .literal c foldCase :: cur.seq⟩ stack

/-- Model of `regexp.Compile` on the syntax the tables use: an optional
leading `(?i)`, literals, `.`, `+`, `^`, `$`, groups and `|`. -/
def compile (pattern : String) : Except String Regex :=
  match pattern.data with
  | '(' :: '?' :: 'i' :: ')' :: rest => parseLoop true rest ⟨[], []⟩ []
  | cs => parseLoop false cs ⟨[], []⟩ []

deriving instance DecidableEq for Except

/-- Model of `regexp.MatchString(pattern, s)`: does `s` contain a match of
`pattern`?  An error is returned when the pattern does not compile. -/
def MatchString (pattern s : String) : Except String Bool :=
  match compile pattern with
  | .ok re => .ok (re.find s.data)
  | .error err => .error ("error parsing regexp: " ++ err)

/-! ## Data model -/

/-- Credentials of one account (`Config.Auth`, `Config.Auth2`). -/
structure AuthConfig where
  ConsumerKey : String
  ConsumerSecret : String
  AccessToken : String
  AccessTokenSecret : String
  deriving DecidableEq, Repr

/-- Section `Settings` of the config file. -/
structure SettingsConfig where
  FriendsCount : String
  FollowerCount : String
  MentionsCount : String
  MyScreenName : String
  ReasonsURL : String
  deriving DecidableEq, Repr

/-- Section `Email` of the config file. -/
structure EmailConfig where
  SendEmails : Bool
  Server : String
  ServerPort : String
  AuthUsername : String
  AuthPassword : String
  FromAddress : String
  AdminAddress : String
  deriving DecidableEq, Repr

/-- The `Config` struct. -/
structure Config where
  Auth : AuthConfig
  Auth2 : AuthConfig
  Settings : SettingsConfig
  Email : EmailConfig
  deriving DecidableEq, Repr

/-- The fields of `anaconda.User` the program reads. -/
structure User where
  Id : Int
  ScreenName : String
  deriving DecidableEq, Repr

/-- The fields of `anaconda.Place` the program reads. -/
structure Place where
  Country : String
  Name : String
  FullName : String
  deriving DecidableEq, Repr

/-- The fields of `anaconda.Tweet` the program reads. -/
structure Tweet where
  IdStr : String
  Text : String
  User : User
  Place : Place
  deriving DecidableEq, Repr

/-- An `anaconda.TwitterApi` handle: the access token pair it was made
with.  The consumer key pair is process-wide (see `State`). -/
structure TwitterApi where
  AccessToken : String
  AccessTokenSecret : String
  deriving DecidableEq, Repr

/-- Model of `url.Values`, keys in insertion order. -/
abbrev Values := List (String × List String)

/-- Model of `url.Values.Set`: the key now has exactly this value. -/
def Values.Set (v : Values) (key value : String) : Values :=
  if v.any (fun kv => kv.1 == key) then
    v.map (fun kv => if kv.1 == key then (key, [value]) else kv)
  else v ++ [(key, [value])]

/-- Result of `smtp.PlainAuth(identity, username, password, host)`. -/
structure PlainAuth where
  identity : String
  username : String
  password : String
  host : String
  deriving DecidableEq, Repr

/-- What the process does that is visible outside a function body, in
program order.  Requests carry the consumer key pair in force and the
handle used.  `checkTweetCalled` and `blockUserCalled` mark the entry of
the two functions with their arguments. -/
inductive Event where
  | println (line : String)
  | readFileInto (filename : String)
  | getFriendsIds (consumerKey consumerSecret : String) (api : TwitterApi) (params : Values)
  | getFollowersIds (consumerKey consumerSecret : String) (api : TwitterApi) (params : Values)
  | getMentionsTimeline (consumerKey consumerSecret : String) (api : TwitterApi)
      (params : Values)
  | checkTweetCalled (tweet : Tweet)
  | matchString (pattern s : String)
  | blockUserCalled (tweet : Tweet) (ruleName : String)
  | blockUserId (consumerKey consumerSecret : String) (api : TwitterApi) (id : Int)
  | postTweet (consumerKey consumerSecret : String) (api : TwitterApi) (status : String)
      (params : Values)
  | sendMail (addr : String) (auth : PlainAuth) (sender : String) (recipients : List String)
      (body : String)
  deriving DecidableEq, Repr

/-- The mutable process state: the consumer key pair held in package
`anaconda` (set by `SetConsumerKey`, `SetConsumerSecret`) and the events so
far. -/
structure State where
  consumerKey : String
  consumerSecret : String
  trace : List Event
  deriving DecidableEq, Repr

/-- Record an event. -/
def State.emit (s : State) (e : Event) : State :=
  { s with trace := s.trace ++ [e] }

/-- How a function ends: it returns a value, or `log.Fatalf` has ended the
process with a message; both carry the state reached. -/
inductive Outcome (α : Type) where
  | ok (value : α) (s : State) : Outcome α
  | fatal (msg : String) (s : State) : Outcome α
  deriving DecidableEq, Repr

/-- The state an outcome was reached in. -/
def Outcome.state {α : Type} : Outcome α → State
  | .ok _ s => s
  | .fatal _ s => s

/-- Did the process end in `log.Fatalf`? -/
def Outcome.isFatal {α : Type} : Outcome α → Bool
  | .ok _ _ => false
  | .fatal _ _ => true

/-- Everything outside the process.  Each answer may depend on the events
recorded before the request.  `mapRange` is the order in which a `range`
loop visits the entries of a map literal: some permutation of them. -/
structure World where
  ReadFileInto : String → Except String Config
  GetFriendsIds : List Event → Values → Except String (List Int)
  GetFollowersIds : List Event → Values → Except String (List Int)
  GetMentionsTimeline : List Event → Values → Except String (List Tweet)
  BlockUserId : List Event → Int → Except String User
  PostTweet : List Event → String → Values → Except String Tweet
  SendMail : List Event → String → PlainAuth → String → List String → String → Option String
  mapRange : List Event → List (String × String) → List (String × String)
  mapRange_perm : ∀ (h : List Event) (m : List (String × String)), (mapRange h m).Perm m

/-! ## The program -/

/-- The map literal `textRules` of `checkTweet`, entries in source order. -/
def textRules : List (String × String) :=
  [ ("(?i)Hamlin", "dennyhamlin"),
    ("(?i)NASCAR", "dennyhamlin"),
    ("(?i)Cagur", "dennycagur"),
    ("(?i)Sumargo", "dennysumargo"),
    ("(?i)Gitong", "dennygitong"),
    ("(?i)^@Denny's$", "atdennys"),
    ("(?i)@Denny's.+(breakfast|lunch|dinner|food|coffee|milkshake|Grand Slam|diner|waitress|service|smash|IHOP)",
      "dennysdiner"),
    ("(?i)(breakfast|lunch|dinner|food|coffee|milkshake|Grand Slam|diner|waitress|service|fam |smash|IHOP|LIVE on #Periscope).+@Denny's",
      "dennysdiner") ]

/-- The map literal `locationRules` of `checkTweet`, entries in source order. -/
def locationRules : List (String × String) :=
  [ ("(?i)Indonesia", "indonesia"),
    ("(?i)Jakarta", "indonesia"),
    ("(?i)Bandung", "indonesia"),
    ("(?i)Padang", "indonesia") ]

/-- The function `blockUser`: block the author from the main account, then
tell them from the notification account, then restore the main account's
consumer key pair. -/
def blockUser (w : World) (tweet : Tweet) (ruleName : String) (cfg : Config)
    (api : TwitterApi) (s : State) : Outcome Unit :=
  let s := s.emit (.blockUserCalled tweet ruleName)
  -- Block the user from the main account
  let req := Event.blockUserId s.consumerKey s.consumerSecret api tweet.User.Id
  match w.BlockUserId s.trace tweet.User.Id with
  | .error err1 => .fatal ("Failed to block user: " ++ err1) (s.emit req)
  | .ok user =>
    let s := s.emit req
    -- Let them know via the notification account
    let s := { s with consumerKey := cfg.Auth2.ConsumerKey }
    let s := { s with consumerSecret := cfg.Auth2.ConsumerSecret }
    let api2 : TwitterApi := ⟨cfg.Auth2.AccessToken, cfg.Auth2.AccessTokenSecret⟩
    let params : Values := []
    let params := params.Set "InReplyToStatusID" tweet.IdStr
    let params := params.Set "InReplyToStatusIdStr" tweet.IdStr
    let status := "@" ++ user.ScreenName ++
      ": Hi! You've been blocked by @" ++ cfg.Settings.MyScreenName ++
      ". Reason: " ++ cfg.Settings.ReasonsURL ++ "#" ++ ruleName
    let post := Event.postTweet s.consumerKey s.consumerSecret api2 status params
    match w.PostTweet s.trace status params with
    | .error err2 => .fatal ("Failed to notify blocked user: " ++ err2) (s.emit post)
    | .ok tweet2 =>
      let s := s.emit post
      -- Display tweet in terminal
      let s := s.emit (.println (">> " ++ tweet2.Text))
      -- Restore API to main account auth settings
      let s := { s with consumerKey := cfg.Auth.ConsumerKey }
      let s := { s with consumerSecret := cfg.Auth.ConsumerSecret }
      .ok () s

/-- The function `emailNotification`: compose the mail, show it, send it. -/
def emailNotification (w : World) (tweet : Tweet) (_ruleName : String) (cfg : Config)
    (s : State) : Outcome Unit :=
  -- Create the email body text
  let body := "From: " ++ cfg.Email.FromAddress ++ "\n" ++
    "To: " ++ cfg.Email.AdminAddress ++ "\n" ++
    "Subject: " ++ "[BlockBot] Blocked @" ++ tweet.User.ScreenName ++
    "\n" ++
    "Your block bot just blocked @" ++ tweet.User.ScreenName ++
    " for the following tweet: \n" ++
    tweet.Text ++ "\n" ++
    "\n" ++
    "User:  https://twitter.com/" ++ tweet.User.ScreenName ++ "\n" ++
    "Tweet: https://twitter.com/" ++ tweet.User.ScreenName ++
    "/status/" ++ tweet.IdStr ++ "\n"
  -- Display email in terminal too
  let s := s.emit (.println body)
  -- Set up authentication details
  let auth : PlainAuth :=
    ⟨"", cfg.Email.AuthUsername, cfg.Email.AuthPassword, cfg.Email.Server⟩
  -- Connect to SMTP server and send the email
  let addr := cfg.Email.Server ++ ":" ++ cfg.Email.ServerPort
  let req := Event.sendMail addr auth cfg.Email.FromAddress [cfg.Email.AdminAddress] body
  match w.SendMail s.trace addr auth cfg.Email.FromAddress [cfg.Email.AdminAddress] body with
  | some err => .fatal err (s.emit req)
  | none => .ok () (s.emit req)

/-- One `for rule, ruleName := range ...` loop of `checkTweet` over the
entries in visiting order, matching against `subject` (the tweet text in
the first loop, the location string in the second).  The value tells
whether `checkTweet` has returned (`true`) or the loop ran to its end
(`false`). -/
def ruleLoop (w : World) (tweet : Tweet) (cfg : Config) (api : TwitterApi)
    (subject : String) : List (String × String) → State → Outcome Bool
  | [], s => .ok false s
  | (rule, ruleName) :: rest, s =>
    let s := s.emit (.matchString rule subject)
    match MatchString rule subject with
    | .error err => .fatal ("Regexp failed: " ++ err) s
    | .ok isMatch =>
      if isMatch then
        match blockUser w tweet ruleName cfg api s with
        | .fatal msg s => .fatal msg s
        | .ok _ s =>
          if cfg.Email.SendEmails then
            match emailNotification w tweet ruleName cfg s with
            | .fatal msg s => .fatal msg s
            | .ok _ s => .ok true s
          else .ok true s
      else ruleLoop w tweet cfg api subject rest s

/-- The function `checkTweet`: the text rules against the body, then the
location rules against the place. -/
def checkTweet (w : World) (tweet : Tweet) (cfg : Config) (api : TwitterApi)
    (s : State) : Outcome Unit :=
  let s := s.emit (.checkTweetCalled tweet)
  -- Body text
  match ruleLoop w tweet cfg api tweet.Text (w.mapRange s.trace textRules) s with
  | .fatal msg s => .fatal msg s
  | .ok true s => .ok () s
  | .ok false s =>
    -- Location
    let location := tweet.Place.Country ++ " " ++ tweet.Place.Name ++ " " ++ tweet.Place.FullName
    match ruleLoop w tweet cfg api location (w.mapRange s.trace locationRules) s with
    | .fatal msg s => .fatal msg s
    | .ok _ s => .ok () s

/-- A Go `map[int64]bool`; a key that was never set reads `false`. -/
abbrev IdSet := Int → Bool

/-- The loop `for _, id := range ids { m[id] = true }`. -/
def markIds : List Int → IdSet → IdSet
  | [], m => m
  | id :: rest, m => markIds rest (fun k => if k = id then true else m k)

/-- The function `getFriendIDs`. -/
def getFriendIDs (w : World) (friendsCount : String) (api : TwitterApi) (s : State) :
    Outcome IdSet :=
  let params : Values := []
  let params := params.Set "count" friendsCount
  -- Get the list of IDs from the API
  let req := Event.getFriendsIds s.consumerKey s.consumerSecret api params
  match w.GetFriendsIds s.trace params with
  | .error err => .fatal ("Failed to get friends data: " ++ err) (s.emit req)
  | .ok friendsIdsTemp => .ok (markIds friendsIdsTemp (fun _ => false)) (s.emit req)

/-- The function `getFollowersIDs`. -/
def getFollowersIDs (w : World) (followerCount : String) (api : TwitterApi) (s : State) :
    Outcome IdSet :=
  let params : Values := []
  let params := params.Set "count" followerCount
  -- Get the list of IDs from the API
  let req := Event.getFollowersIds s.consumerKey s.consumerSecret api params
  match w.GetFollowersIds s.trace params with
  | .error err => .fatal ("Failed to get followers data: " ++ err) (s.emit req)
  | .ok followerIdsTemp => .ok (markIds followerIdsTemp (fun _ => false)) (s.emit req)

/-- The function `getMentions`. -/
def getMentions (w : World) (mentionsCount : String) (api : TwitterApi) (s : State) :
    Outcome (List Tweet) :=
  let params : Values := []
  let params := params.Set "count" mentionsCount
  let req := Event.getMentionsTimeline s.consumerKey s.consumerSecret api params
  match w.GetMentionsTimeline s.trace params with
  | .error err => .fatal ("Failed to get mentions: " ++ err) (s.emit req)
  | .ok mentions => .ok mentions (s.emit req)

/-- The loop of `main` over the mentions. -/
def mentionsLoop (w : World) (cfg : Config) (api : TwitterApi) (friendsIds followersIds : IdSet) :
    List Tweet → State → Outcome Unit
  | [], s => .ok () s
  | tweet :: rest, s =>
    let s := s.emit (.println ("<" ++ tweet.User.ScreenName ++ ">" ++ " " ++ tweet.Text))
    -- Check to see if tweet was posted by a friend
    if !friendsIds tweet.User.Id && !followersIds tweet.User.Id then
      -- Not a friend or follower - check the tweet content against block rules
      match checkTweet w tweet cfg api s with
      | .fatal msg s => .fatal msg s
      | .ok _ s => mentionsLoop w cfg api friendsIds followersIds rest s
    else mentionsLoop w cfg api friendsIds followersIds rest s

/-- The function `getConfig`. -/
def getConfig (w : World) (filename : String) (s : State) : Outcome Config :=
  let s := s.emit (.readFileInto filename)
  match w.ReadFileInto filename with
  | .error cfgerr => .fatal ("Failed to parse gcfg data: " ++ cfgerr) s
  | .ok cfg => .ok cfg s

/-- The function `main`, from a fresh process. -/
def main (w : World) : Outcome Unit :=
  let s : State := ⟨"", "", []⟩
  -- Get config from file
  match getConfig w "config.gcfg" s with
  | .fatal msg s => .fatal msg s
  | .ok cfg s =>
    -- Initialise and authenticate API objects
    let s := { s with consumerKey := cfg.Auth.ConsumerKey }
    let s := { s with consumerSecret := cfg.Auth.ConsumerSecret }
    let api : TwitterApi := ⟨cfg.Auth.AccessToken, cfg.Auth.AccessTokenSecret⟩
    -- Get friends' and followers' IDs
    match getFriendIDs w cfg.Settings.FriendsCount api s with
    | .fatal msg s => .fatal msg s
    | .ok friendsIds s =>
      match getFollowersIDs w cfg.Settings.FollowerCount api s with
      | .fatal msg s => .fatal msg s
      | .ok followersIds s =>
        -- Get mentions
        match getMentions w cfg.Settings.MentionsCount api s with
        | .fatal msg s => .fatal msg s
        | .ok mentions s =>
          -- Run through mentions checking against friend/follower lists and block criteria
          mentionsLoop w cfg api friendsIds followersIds mentions s

/-! ## Vocabulary of the proofs -/

/-- The constructor of an event, without its arguments. -/
inductive Kind where
  | println | readFileInto | getFriendsIds | getFollowersIds | getMentionsTimeline
  | checkTweetCalled | matchString | blockUserCalled | blockUserId | postTweet | sendMail
  deriving DecidableEq, Repr

/-- Which constructor an event is. -/
def Event.kind : Event → Kind
  | .println _ => .println
  | .readFileInto _ => .readFileInto
  | .getFriendsIds _ _ _ _ => .getFriendsIds
  | .getFollowersIds _ _ _ _ => .getFollowersIds
  | .getMentionsTimeline _ _ _ _ => .getMentionsTimeline
  | .checkTweetCalled _ => .checkTweetCalled
  | .matchString _ _ => .matchString
  | .blockUserCalled _ _ => .blockUserCalled
  | .blockUserId _ _ _ _ => .blockUserId
  | .postTweet _ _ _ _ _ => .postTweet
  | .sendMail _ _ _ _ _ => .sendMail

/-- Record several events. -/
def State.emitAll (s : State) (evs : List Event) : State :=
  { s with trace := s.trace ++ evs }

/-- The `matchString` events of evaluating the given rules, in order. -/
def evals (subject : String) (rules : List (String × String)) : List Event :=
  rules.map (fun r => Event.matchString r.1 subject)

/-- The body of `if match { ... }` in both loops of `checkTweet`. -/
def onMatch (w : World) (tweet : Tweet) (ruleName : String) (cfg : Config)
    (api : TwitterApi) (s : State) : Outcome Bool :=
  match blockUser w tweet ruleName cfg api s with
  | .fatal msg s => .fatal msg s
  | .ok _ s =>
    if cfg.Email.SendEmails then
      match emailNotification w tweet ruleName cfg s with
      | .fatal msg s => .fatal msg s
      | .ok _ s => .ok true s
    else .ok true s

/-- Forget the value of an outcome. -/
def Outcome.void {α : Type} : Outcome α → Outcome Unit
  | .ok _ s => .ok () s
  | .fatal msg s => .fatal msg s

/-- The location string the second loop of `checkTweet` matches against. -/
def locationOf (tweet : Tweet) : String :=
  tweet.Place.Country ++ " " ++ tweet.Place.Name ++ " " ++ tweet.Place.FullName

/-- The text `emailNotification` composes. -/
def mailBody (tweet : Tweet) (cfg : Config) : String :=
  "From: " ++ cfg.Email.FromAddress ++ "\n" ++
    "To: " ++ cfg.Email.AdminAddress ++ "\n" ++
    "Subject: " ++ "[BlockBot] Blocked @" ++ tweet.User.ScreenName ++
    "\n" ++
    "Your block bot just blocked @" ++ tweet.User.ScreenName ++
    " for the following tweet: \n" ++
    tweet.Text ++ "\n" ++
    "\n" ++
    "User:  https://twitter.com/" ++ tweet.User.ScreenName ++ "\n" ++
    "Tweet: https://twitter.com/" ++ tweet.User.ScreenName ++
    "/status/" ++ tweet.IdStr ++ "\n"

/-- The request `emailNotification` hands to `smtp.SendMail`. -/
def mailEvent (tweet : Tweet) (cfg : Config) : Event :=
  Event.sendMail (cfg.Email.Server ++ ":" ++ cfg.Email.ServerPort)
    ⟨"", cfg.Email.AuthUsername, cfg.Email.AuthPassword, cfg.Email.Server⟩
    cfg.Email.FromAddress [cfg.Email.AdminAddress] (mailBody tweet cfg)

/-- Does the pattern compile? -/
def compiles (pattern : String) : Bool :=
  match compile pattern with
  | .ok _ => true
  | .error _ => false

/-- The sequences of event kinds that can follow the block request inside
the body of `if match`. -/
def actionShapes : List (List Kind) :=
  [ [], [.postTweet], [.postTweet, .println],
    [.postTweet, .println, .println, .sendMail] ]

/-! ## Concrete inputs -/

/-- A config with both accounts and mail switched on. -/
def sampleConfig : Config :=
  { Auth := ⟨"key1", "secret1", "token1", "tokensecret1"⟩
    Auth2 := ⟨"key2", "secret2", "token2", "tokensecret2"⟩
    Settings := ⟨"5000", "5000", "20", "denny", "http://example.org/reasons"⟩
    Email := ⟨true, "mail.example.org", "25", "bot", "pw", "bot@example.org",
      "admin@example.org"⟩ }

/-- The handle `main` makes for the first account of `sampleConfig`. -/
def sampleApi : TwitterApi := ⟨"token1", "tokensecret1"⟩

/-- The state `main` is in when the loop over the mentions starts, with
nothing recorded yet. -/
def sampleState : State := ⟨"key1", "secret1", []⟩

/-- A mention without a place. -/
def mention (idStr text : String) (author : Int) (handle : String) : Tweet :=
  ⟨idStr, text, ⟨author, handle⟩, ⟨"", "", ""⟩⟩

/-- A world in which the config file reads as `sampleConfig`, the API
returns the given friends, followers and mentions, blocking fails when
`blockFails` is set, every other request succeeds, and each `range` loop
starts `shift` entries into the table and wraps around. -/
def sampleWorld (shift : Nat) (blockFails : Bool) (friends followers : List Int)
    (mentions : List Tweet) : World :=
  { ReadFileInto := fun _ => .ok sampleConfig
    GetFriendsIds := fun _ _ => .ok friends
    GetFollowersIds := fun _ _ => .ok followers
    GetMentionsTimeline := fun _ _ => .ok mentions
    BlockUserId := fun _ id =>
      if blockFails then .error "twitter: 403" else .ok ⟨id, "fan"⟩
    PostTweet := fun _ status _ => .ok ⟨"1", status, ⟨0, "notifier"⟩, ⟨"", "", ""⟩⟩
    SendMail := fun _ _ _ _ _ _ => none
    mapRange := fun _ m => m.rotate shift
    mapRange_perm := fun _ m => List.rotate_perm m shift }

/-! ## Lemmas on the loops -/

theorem emit_eq_emitAll (s : State) (e : Event) : s.emit e = s.emitAll [e] := rfl

theorem emitAll_emitAll (s : State) (a b : List Event) :
    (s.emitAll a).emitAll b = s.emitAll (a ++ b) := by
  simp [State.emitAll, List.append_assoc]

theorem emitAll_nil (s : State) : s.emitAll [] = s := by
  simp [State.emitAll]

theorem ruleLoop_cons (w : World) (tweet : Tweet) (cfg : Config) (api : TwitterApi)
    (subject rule ruleName : String) (rest : List (String × String)) (s : State) :
    ruleLoop w tweet cfg api subject ((rule, ruleName) :: rest) s =
      match MatchString rule subject with
      | .error err => .fatal ("Regexp failed: " ++ err) (s.emit (.matchString rule subject))
      | .ok isMatch =>
        if isMatch then onMatch w tweet ruleName cfg api (s.emit (.matchString rule subject))
        else ruleLoop w tweet cfg api subject rest (s.emit (.matchString rule subject)) := by
  simp only [ruleLoop, onMatch]

/-- A loop over rules that all miss evaluates each of them and falls through. -/
theorem ruleLoop_miss (w : World) (tweet : Tweet) (cfg : Config) (api : TwitterApi)
    (subject : String) (rules : List (String × String)) (s : State)
    (hmiss : ∀ r ∈ rules, MatchString r.1 subject = .ok false) :
    ruleLoop w tweet cfg api subject rules s = .ok false (s.emitAll (evals subject rules)) := by
  induction rules generalizing s with
  | nil => simp [ruleLoop, evals, emitAll_nil]
  | cons r rest ih =>
    obtain ⟨rule, ruleName⟩ := r
    have h1 : MatchString rule subject = .ok false := hmiss (rule, ruleName) (by simp)
    rw [ruleLoop_cons, h1]
    simp only [Bool.false_eq_true, if_false]
    rw [ih _ (fun r hr => hmiss r (by simp [hr])), emit_eq_emitAll, emitAll_emitAll]
    simp [evals]

/-- A loop whose first hit is `(rule, ruleName)` evaluates the rules up to
it and runs the body of `if match` with its label. -/
theorem ruleLoop_hit (w : World) (tweet : Tweet) (cfg : Config) (api : TwitterApi)
    (subject : String) (pre : List (String × String)) (rule ruleName : String)
    (post : List (String × String)) (s : State)
    (hmiss : ∀ r ∈ pre, MatchString r.1 subject = .ok false)
    (hhit : MatchString rule subject = .ok true) :
    ruleLoop w tweet cfg api subject (pre ++ (rule, ruleName) :: post) s =
      onMatch w tweet ruleName cfg api
        (s.emitAll (evals subject (pre ++ [(rule, ruleName)]))) := by
  induction pre generalizing s with
  | nil =>
    simp only [List.nil_append]
    rw [ruleLoop_cons, hhit]
    simp [evals, emit_eq_emitAll]
  | cons r rest ih =>
    obtain ⟨p, l⟩ := r
    have h1 : MatchString p subject = .ok false := hmiss (p, l) (by simp)
    simp only [List.cons_append]
    rw [ruleLoop_cons, h1]
    simp only [Bool.false_eq_true, if_false]
    rw [ih _ (fun r hr => hmiss r (by simp [hr])), emit_eq_emitAll, emitAll_emitAll]
    simp [evals]

/-- Rules that compile split into the misses before the first hit, the
hit and the rest, unless all of them miss. -/
theorem split_first_hit (subject : String) (rules : List (String × String))
    (hc : ∀ r ∈ rules, compiles r.1 = true) :
    (∀ r ∈ rules, MatchString r.1 subject = .ok false) ∨
    ∃ pre rule ruleName post, rules = pre ++ (rule, ruleName) :: post ∧
      (∀ r ∈ pre, MatchString r.1 subject = .ok false) ∧
      MatchString rule subject = .ok true := by
  induction rules with
  | nil => left; simp
  | cons r rest ih =>
    obtain ⟨p, l⟩ := r
    have hcp : compiles p = true := hc (p, l) (by simp)
    have hb : ∃ b, MatchString p subject = .ok b := by
      unfold compiles at hcp
      unfold MatchString
      split at hcp
      · rename_i re hre
        exact ⟨_, rfl⟩
      · simp at hcp
    obtain ⟨b, hb⟩ := hb
    cases b with
    | true => right; exact ⟨[], p, l, rest, rfl, by simp, hb⟩
    | false =>
      rcases ih (fun r hr => hc r (by simp [hr])) with hall | ⟨pre, rule, ruleName, post, h1, h2, h3⟩
      · left
        intro r hr
        rcases List.mem_cons.1 hr with rfl | hr
        · exact hb
        · exact hall r hr
      · right
        refine ⟨(p, l) :: pre, rule, ruleName, post, by simp [h1], ?_, h3⟩
        intro r hr
        rcases List.mem_cons.1 hr with rfl | hr
        · exact hb
        · exact h2 r hr

set_option maxRecDepth 100000 in
theorem textRules_compile : ∀ r ∈ textRules, compiles r.1 = true := by decide!

set_option maxRecDepth 100000 in
theorem locationRules_compile : ∀ r ∈ locationRules, compiles r.1 = true := by decide!

theorem mapRange_compiles (w : World) (h : List Event) (rules : List (String × String))
    (hc : ∀ r ∈ rules, compiles r.1 = true) :
    ∀ r ∈ w.mapRange h rules, compiles r.1 = true :=
  fun r hr => hc r ((w.mapRange_perm h rules).mem_iff.1 hr)

/-- The body of `if match` ends the process or returns from `checkTweet`. -/
theorem onMatch_result (w : World) (tweet : Tweet) (ruleName : String) (cfg : Config)
    (api : TwitterApi) (s : State) :
    (∃ msg s', onMatch w tweet ruleName cfg api s = .fatal msg s') ∨
    (∃ s', onMatch w tweet ruleName cfg api s = .ok true s') := by
  unfold onMatch
  cases blockUser w tweet ruleName cfg api s with
  | fatal msg s1 => left; exact ⟨msg, s1, rfl⟩
  | ok v s1 =>
    by_cases hm : cfg.Email.SendEmails = true
    · simp only [hm, if_true]
      cases emailNotification w tweet ruleName cfg s1 with
      | fatal msg s2 => left; exact ⟨msg, s2, rfl⟩
      | ok v2 s2 => right; exact ⟨s2, rfl⟩
    · simp only [hm]
      right; exact ⟨s1, rfl⟩

/-- The events of the body of `if match`: the call of `blockUser`, the
block request under the key pair in force, then one of `actionShapes`. -/
theorem onMatch_trace (w : World) (tweet : Tweet) (ruleName : String) (cfg : Config)
    (api : TwitterApi) (s : State) :
    ∃ rest, (onMatch w tweet ruleName cfg api s).state.trace =
        s.trace ++ Event.blockUserCalled tweet ruleName ::
          Event.blockUserId s.consumerKey s.consumerSecret api tweet.User.Id :: rest ∧
      rest.map Event.kind ∈ actionShapes ∧
      (Kind.sendMail ∈ rest.map Event.kind → cfg.Email.SendEmails = true) ∧
      (∀ e ∈ rest, e.kind = Kind.sendMail → e = mailEvent tweet cfg) := by
  unfold onMatch blockUser
  simp only [State.emit]
  split
  · rename_i msg s' h
    split at h
    · injection h with h1 h2
      subst h2
      exact ⟨[], by simp [Outcome.state], by simp [actionShapes], by simp, by simp⟩
    · split at h
      · injection h with h1 h2
        subst h2
        exact ⟨_, by simp [Outcome.state]; rfl, by simp [actionShapes, Event.kind],
          by simp [Event.kind], by simp [Event.kind]⟩
      · cases h
  · rename_i u s' h
    split at h
    · cases h
    · split at h
      · cases h
      · injection h with h1 h2
        subst h2
        by_cases hm : cfg.Email.SendEmails = true
        · simp only [hm, if_true]
          unfold emailNotification
          simp only [State.emit]
          split <;> rename_i h3 <;> split at h3 <;> cases h3 <;>
            exact ⟨_, by simp [Outcome.state]; rfl, by simp [actionShapes, Event.kind],
              by simp, by simp [Event.kind, mailEvent, mailBody]⟩
        · simp only [hm]
          exact ⟨_, by simp [Outcome.state]; rfl, by simp [actionShapes, Event.kind],
            by simp [Event.kind], by simp [Event.kind]⟩

/-- The three ways `checkTweet` can go: the first hit is a text rule, or
the text rules all miss and the first hit is a location rule, or every
rule misses. -/
theorem checkTweet_cases (w : World) (tweet : Tweet) (cfg : Config) (api : TwitterApi)
    (s : State) :
    (∃ pre rule ruleName post,
      w.mapRange (s.trace ++ [Event.checkTweetCalled tweet]) textRules =
        pre ++ (rule, ruleName) :: post ∧
      (∀ r ∈ pre, MatchString r.1 tweet.Text = .ok false) ∧
      MatchString rule tweet.Text = .ok true ∧
      checkTweet w tweet cfg api s =
        (onMatch w tweet ruleName cfg api
          (s.emitAll (Event.checkTweetCalled tweet ::
            evals tweet.Text (pre ++ [(rule, ruleName)])))).void) ∨
    ((∀ r ∈ textRules, MatchString r.1 tweet.Text = .ok false) ∧
      ∃ pre rule ruleName post,
        w.mapRange (s.trace ++ Event.checkTweetCalled tweet ::
            evals tweet.Text (w.mapRange (s.trace ++ [Event.checkTweetCalled tweet]) textRules))
          locationRules = pre ++ (rule, ruleName) :: post ∧
        (∀ r ∈ pre, MatchString r.1 (locationOf tweet) = .ok false) ∧
        MatchString rule (locationOf tweet) = .ok true ∧
        checkTweet w tweet cfg api s =
          (onMatch w tweet ruleName cfg api
            (s.emitAll (Event.checkTweetCalled tweet ::
              (evals tweet.Text
                  (w.mapRange (s.trace ++ [Event.checkTweetCalled tweet]) textRules) ++
                evals (locationOf tweet) (pre ++ [(rule, ruleName)]))))).void) ∨
    ((∀ r ∈ textRules, MatchString r.1 tweet.Text = .ok false) ∧
      (∀ r ∈ locationRules, MatchString r.1 (locationOf tweet) = .ok false) ∧
      checkTweet w tweet cfg api s =
        .ok () (s.emitAll (Event.checkTweetCalled tweet ::
          (evals tweet.Text
              (w.mapRange (s.trace ++ [Event.checkTweetCalled tweet]) textRules) ++
            evals (locationOf tweet)
              (w.mapRange (s.trace ++ Event.checkTweetCalled tweet ::
                  evals tweet.Text
                    (w.mapRange (s.trace ++ [Event.checkTweetCalled tweet]) textRules))
                locationRules))))) := by
  have hT := split_first_hit tweet.Text
    (w.mapRange (s.trace ++ [Event.checkTweetCalled tweet]) textRules)
    (mapRange_compiles w _ _ textRules_compile)
  rcases hT with hall | ⟨pre, rule, ruleName, post, hsplit, hmiss, hhit⟩
  · right
    have hallT : ∀ r ∈ textRules, MatchString r.1 tweet.Text = .ok false :=
      fun r hr => hall r ((w.mapRange_perm _ _).mem_iff.2 hr)
    have hL := split_first_hit (locationOf tweet)
      (w.mapRange (s.trace ++ Event.checkTweetCalled tweet ::
            evals tweet.Text (w.mapRange (s.trace ++ [Event.checkTweetCalled tweet]) textRules))
          locationRules)
      (mapRange_compiles w _ _ locationRules_compile)
    rcases hL with hallL | ⟨pre, rule, ruleName, post, hsplit, hmiss, hhit⟩
    · right
      refine ⟨hallT, fun r hr => hallL r ((w.mapRange_perm _ _).mem_iff.2 hr), ?_⟩
      unfold checkTweet
      simp only [State.emit]
      rw [ruleLoop_miss _ _ _ _ _ _ _ hall]
      simp only [State.emitAll, List.append_assoc, List.singleton_append]
      rw [← locationOf, ruleLoop_miss _ _ _ _ _ _ _ hallL]
      simp [State.emitAll]
    · left
      refine ⟨hallT, pre, rule, ruleName, post, hsplit, hmiss, hhit, ?_⟩
      unfold checkTweet
      simp only [State.emit]
      rw [ruleLoop_miss _ _ _ _ _ _ _ hall]
      simp only [State.emitAll, List.append_assoc, List.singleton_append]
      rw [← locationOf, hsplit, ruleLoop_hit _ _ _ _ _ _ _ _ _ _ hmiss hhit]
      simp only [State.emitAll, List.append_assoc, List.cons_append]
      rcases onMatch_result w tweet ruleName cfg api
        { consumerKey := s.consumerKey, consumerSecret := s.consumerSecret,
          trace := s.trace ++ Event.checkTweetCalled tweet ::
            (evals tweet.Text
                (w.mapRange (s.trace ++ [Event.checkTweetCalled tweet]) textRules) ++
              evals (locationOf tweet) (pre ++ [(rule, ruleName)])) }
        with ⟨msg, s', h⟩ | ⟨s', h⟩ <;> rw [h] <;> rfl
  · left
    refine ⟨pre, rule, ruleName, post, hsplit, hmiss, hhit, ?_⟩
    unfold checkTweet
    simp only [State.emit]
    rw [hsplit, ruleLoop_hit _ _ _ _ _ _ _ _ _ _ hmiss hhit]
    simp only [State.emitAll, List.append_assoc, List.singleton_append]
    rcases onMatch_result w tweet ruleName cfg api
      { consumerKey := s.consumerKey, consumerSecret := s.consumerSecret,
        trace := s.trace ++ Event.checkTweetCalled tweet ::
          evals tweet.Text (pre ++ [(rule, ruleName)]) }
      with ⟨msg, s', h⟩ | ⟨s', h⟩ <;> rw [h] <;> rfl

theorem void_state {α : Type} (o : Outcome α) : o.void.state = o.state := by
  cases o <;> rfl

theorem mem_evals (subject : String) (rules : List (String × String)) (e : Event) :
    e ∈ evals subject rules ↔ ∃ r ∈ rules, e = Event.matchString r.1 subject := by
  simp only [evals, List.mem_map]
  constructor
  · rintro ⟨r, hr, rfl⟩; exact ⟨r, hr, rfl⟩
  · rintro ⟨r, hr, rfl⟩; exact ⟨r, hr, rfl⟩

theorem filter_evals (subject : String) (rules : List (String × String)) (k : Kind)
    (hk : k ≠ Kind.matchString) :
    (evals subject rules).filter (fun e => e.kind == k) = [] := by
  rw [List.filter_eq_nil_iff]
  intro e he
  obtain ⟨r, _, rfl⟩ := (mem_evals _ _ _).1 he
  simpa [Event.kind] using fun h => hk h.symm

/-- What can follow the block request is only a post, a print or a mail. -/
theorem actionShapes_kind (rest : List Event) (h : rest.map Event.kind ∈ actionShapes)
    (e : Event) (he : e ∈ rest) :
    e.kind = Kind.postTweet ∨ e.kind = Kind.println ∨ e.kind = Kind.sendMail := by
  have hk : e.kind ∈ rest.map Event.kind := List.mem_map_of_mem _ he
  simp only [actionShapes, List.mem_cons, List.mem_singleton, List.not_mem_nil, or_false] at h
  rcases h with h | h | h | h <;> rw [h] at hk <;> simp at hk <;> tauto

theorem filter_action (rest : List Event) (h : rest.map Event.kind ∈ actionShapes) (k : Kind)
    (h1 : k ≠ Kind.postTweet) (h2 : k ≠ Kind.println) (h3 : k ≠ Kind.sendMail) :
    rest.filter (fun e => e.kind == k) = [] := by
  rw [List.filter_eq_nil_iff]
  intro e he
  rcases actionShapes_kind rest h e he with hk | hk | hk <;> rw [hk] <;> simp <;>
    first | exact fun h => h1 h.symm | exact fun h => h2 h.symm | exact fun h => h3 h.symm

/-- In the trace of a call of `checkTweet` that hits, `blockUser` is
entered once. -/
theorem filter_blockUserCalled (tweet : Tweet) (ruleName subject : String)
    (rules : List (String × String)) (key secret : String) (api : TwitterApi)
    (rest : List Event) (h : rest.map Event.kind ∈ actionShapes) :
    (Event.checkTweetCalled tweet ::
      (evals subject rules ++ Event.blockUserCalled tweet ruleName ::
        Event.blockUserId key secret api tweet.User.Id :: rest)).filter
        (fun e => e.kind == Kind.blockUserCalled) =
      [Event.blockUserCalled tweet ruleName] := by
  rw [List.filter_cons_of_neg (by simp [Event.kind]), List.filter_append,
    filter_evals _ _ _ (by decide), List.nil_append,
    List.filter_cons_of_pos (by simp [Event.kind]),
    List.filter_cons_of_neg (by simp [Event.kind]),
    filter_action rest h Kind.blockUserCalled (by decide) (by decide) (by decide)]

/-- A rule that compiles and does not hit, misses. -/
theorem miss_of_not_hit (pattern subject : String) (hc : compiles pattern = true)
    (h : MatchString pattern subject ≠ .ok true) : MatchString pattern subject = .ok false := by
  unfold compiles at hc
  unfold MatchString at h ⊢
  split at hc
  · rename_i re hre
    simp only [hre] at h ⊢
    cases hf : re.find subject.data with
    | true => rw [hf] at h; exact absurd rfl h
    | false => rfl
  · simp at hc

set_option maxRecDepth 100000 in
theorem rule_tables_disjoint : ∀ r ∈ locationRules, ∀ t ∈ textRules, r.1 ≠ t.1 := by decide!

/-- The trace of `checkTweet` when the first hit of the text loop is
`(rule, ruleName)` after the misses `pre`. -/
theorem checkTweet_text_hit_trace (w : World) (tweet : Tweet) (cfg : Config)
    (api : TwitterApi) (s : State) (pre : List (String × String)) (rule ruleName : String)
    (post : List (String × String))
    (horder : w.mapRange (s.trace ++ [Event.checkTweetCalled tweet]) textRules =
      pre ++ (rule, ruleName) :: post)
    (hmiss : ∀ r ∈ pre, MatchString r.1 tweet.Text = .ok false)
    (hhit : MatchString rule tweet.Text = .ok true) :
    ∃ rest, (checkTweet w tweet cfg api s).state.trace =
        s.trace ++ (Event.checkTweetCalled tweet ::
          (evals tweet.Text (pre ++ [(rule, ruleName)]) ++
            Event.blockUserCalled tweet ruleName ::
              Event.blockUserId s.consumerKey s.consumerSecret api tweet.User.Id :: rest)) ∧
      rest.map Event.kind ∈ actionShapes ∧
      (Kind.sendMail ∈ rest.map Event.kind → cfg.Email.SendEmails = true) ∧
      (∀ e ∈ rest, e.kind = Kind.sendMail → e = mailEvent tweet cfg) := by
  have hrun : checkTweet w tweet cfg api s =
      (onMatch w tweet ruleName cfg api
        (s.emitAll (Event.checkTweetCalled tweet ::
          evals tweet.Text (pre ++ [(rule, ruleName)])))).void := by
    unfold checkTweet
    simp only [State.emit]
    rw [horder, ruleLoop_hit _ _ _ _ _ _ _ _ _ _ hmiss hhit]
    simp only [State.emitAll, List.append_assoc, List.singleton_append]
    rcases onMatch_result w tweet ruleName cfg api
      { consumerKey := s.consumerKey, consumerSecret := s.consumerSecret,
        trace := s.trace ++ Event.checkTweetCalled tweet ::
          evals tweet.Text (pre ++ [(rule, ruleName)]) }
      with ⟨msg, s', h⟩ | ⟨s', h⟩ <;> rw [h] <;> rfl
  obtain ⟨rest, h1, h2, h3, h4⟩ := onMatch_trace w tweet ruleName cfg api
    (s.emitAll (Event.checkTweetCalled tweet :: evals tweet.Text (pre ++ [(rule, ruleName)])))
  refine ⟨rest, ?_, h2, h3, h4⟩
  rw [hrun, void_state, h1]
  simp [State.emitAll]

/-- After a successful block, `blockUser` posts the notice under the key
pair of the second account; if the post goes through, it is echoed. -/
theorem blockUser_post (w : World) (tweet : Tweet) (ruleName : String)
    (cfg : Config) (api : TwitterApi) (s : State) (user : User)
    (hblock : w.BlockUserId (s.trace ++ [Event.blockUserCalled tweet ruleName])
      tweet.User.Id = .ok user) :
    ∃ rest, (blockUser w tweet ruleName cfg api s).state.trace =
        s.trace ++ Event.blockUserCalled tweet ruleName ::
          Event.blockUserId s.consumerKey s.consumerSecret api tweet.User.Id ::
          Event.postTweet cfg.Auth2.ConsumerKey cfg.Auth2.ConsumerSecret
            ⟨cfg.Auth2.AccessToken, cfg.Auth2.AccessTokenSecret⟩
            ("@" ++ user.ScreenName ++ ": Hi! You've been blocked by @" ++
              cfg.Settings.MyScreenName ++ ". Reason: " ++ cfg.Settings.ReasonsURL ++ "#" ++
              ruleName)
            (Values.Set (Values.Set [] "InReplyToStatusID" tweet.IdStr)
              "InReplyToStatusIdStr" tweet.IdStr) :: rest ∧
      (rest = [] ∨ ∃ line, rest = [Event.println line]) := by
  unfold blockUser
  simp only [State.emit, hblock]
  split
  · exact ⟨[], by simp [Outcome.state], Or.inl rfl⟩
  · exact ⟨[Event.println _], by simp [Outcome.state]; rfl, Or.inr ⟨_, rfl⟩⟩

/-- The events of `emailNotification`: the echo of the mail, then the
send request. -/
theorem emailNotification_trace (w : World) (tweet : Tweet) (ruleName : String)
    (cfg : Config) (s : State) :
    (emailNotification w tweet ruleName cfg s).state.trace =
      s.trace ++ [Event.println (mailBody tweet cfg), mailEvent tweet cfg] := by
  unfold emailNotification
  simp only [State.emit]
  split <;> simp [Outcome.state, mailBody, mailEvent]

theorem mailBody_contains_text (tweet : Tweet) (cfg : Config) :
    tweet.Text.data <:+: (mailBody tweet cfg).data :=
  ⟨("From: " ++ cfg.Email.FromAddress ++ "\n" ++
      "To: " ++ cfg.Email.AdminAddress ++ "\n" ++
      "Subject: " ++ "[BlockBot] Blocked @" ++ tweet.User.ScreenName ++
      "\n" ++
      "Your block bot just blocked @" ++ tweet.User.ScreenName ++
      " for the following tweet: \n").data,
    ("\n" ++
      "\n" ++
      "User:  https://twitter.com/" ++ tweet.User.ScreenName ++ "\n" ++
      "Tweet: https://twitter.com/" ++ tweet.User.ScreenName ++
      "/status/" ++ tweet.IdStr ++ "\n").data, by
    simp [mailBody, String.data_append]⟩

theorem mailBody_contains_status_url (tweet : Tweet) (cfg : Config) :
    ("https://twitter.com/" ++ tweet.User.ScreenName ++ "/status/" ++ tweet.IdStr).data <:+:
      (mailBody tweet cfg).data :=
  ⟨("From: " ++ cfg.Email.FromAddress ++ "\n" ++
      "To: " ++ cfg.Email.AdminAddress ++ "\n" ++
      "Subject: " ++ "[BlockBot] Blocked @" ++ tweet.User.ScreenName ++
      "\n" ++
      "Your block bot just blocked @" ++ tweet.User.ScreenName ++
      " for the following tweet: \n" ++
      tweet.Text ++ "\n" ++
      "\n" ++
      "User:  https://twitter.com/" ++ tweet.User.ScreenName ++ "\n" ++
      "Tweet: ").data, ['\n'], by
    have h : ("Tweet: https://twitter.com/" : String) = "Tweet: " ++ "https://twitter.com/" := by
      decide
    unfold mailBody
    rw [h]
    simp only [String.data_append, List.append_assoc]⟩

/-- The whole trace of one call of `checkTweet`: the entry, evaluations
that miss, and then either nothing (every rule of both tables misses) or
the evaluation that hits followed by the call of `blockUser` with the
label of the rule that hit, the block request and one of `actionShapes`. -/
theorem checkTweet_trace (w : World) (tweet : Tweet) (cfg : Config) (api : TwitterApi)
    (s : State) :
    ∃ misses tail, (checkTweet w tweet cfg api s).state.trace =
        s.trace ++ Event.checkTweetCalled tweet :: (misses ++ tail) ∧
      (∀ e ∈ misses, ∃ p subject, e = Event.matchString p subject ∧
        MatchString p subject = .ok false) ∧
      ((tail = [] ∧ (∀ r ∈ textRules, MatchString r.1 tweet.Text = .ok false) ∧
          (∀ r ∈ locationRules, MatchString r.1 (locationOf tweet) = .ok false)) ∨
        ∃ p subject l rest,
          tail = Event.matchString p subject :: Event.blockUserCalled tweet l ::
            Event.blockUserId s.consumerKey s.consumerSecret api tweet.User.Id :: rest ∧
          MatchString p subject = .ok true ∧
          rest.map Event.kind ∈ actionShapes ∧
          (Kind.sendMail ∈ rest.map Event.kind → cfg.Email.SendEmails = true) ∧
          (∀ e ∈ rest, e.kind = Kind.sendMail → e = mailEvent tweet cfg) ∧
          (((p, l) ∈ textRules ∧ subject = tweet.Text) ∨
            ((p, l) ∈ locationRules ∧ subject = locationOf tweet ∧
              ∀ r ∈ textRules, MatchString r.1 tweet.Text = .ok false))) := by
  have hmissev : ∀ (subject : String) (rules : List (String × String)),
      (∀ r ∈ rules, MatchString r.1 subject = .ok false) →
      ∀ e ∈ evals subject rules, ∃ p subject, e = Event.matchString p subject ∧
        MatchString p subject = .ok false := by
    intro subject rules h e he
    obtain ⟨r, hr, rfl⟩ := (mem_evals _ _ _).1 he
    exact ⟨_, _, rfl, h r hr⟩
  rcases checkTweet_cases w tweet cfg api s with
    ⟨pre, rule, l, post, horder, hmiss, hhit, hrun⟩ |
    ⟨hallT, pre, rule, l, post, horder, hmiss, hhit, hrun⟩ | ⟨hallT, hallL, hrun⟩
  · obtain ⟨rest, h1, h2, h3, h4⟩ := onMatch_trace w tweet l cfg api
      (s.emitAll (Event.checkTweetCalled tweet :: evals tweet.Text (pre ++ [(rule, l)])))
    refine ⟨evals tweet.Text pre, _, ?_, hmissev _ _ hmiss, Or.inr
      ⟨rule, tweet.Text, l, rest, rfl, hhit, h2, h3, h4, Or.inl ⟨?_, rfl⟩⟩⟩
    · rw [hrun, void_state, h1]
      simp [State.emitAll, evals]
    · apply (w.mapRange_perm (s.trace ++ [Event.checkTweetCalled tweet]) textRules).mem_iff.1
      rw [horder]
      simp
  · obtain ⟨rest, h1, h2, h3, h4⟩ := onMatch_trace w tweet l cfg api
      (s.emitAll (Event.checkTweetCalled tweet ::
        (evals tweet.Text
            (w.mapRange (s.trace ++ [Event.checkTweetCalled tweet]) textRules) ++
          evals (locationOf tweet) (pre ++ [(rule, l)]))))
    refine ⟨evals tweet.Text
        (w.mapRange (s.trace ++ [Event.checkTweetCalled tweet]) textRules) ++
        evals (locationOf tweet) pre, _, ?_, ?_, Or.inr
      ⟨rule, locationOf tweet, l, rest, rfl, hhit, h2, h3, h4, Or.inr ⟨?_, rfl, hallT⟩⟩⟩
    · rw [hrun, void_state, h1]
      simp [State.emitAll, evals]
    · intro e he
      rcases List.mem_append.1 he with he | he
      · exact hmissev _ _
          (fun r hr => hallT r ((w.mapRange_perm _ _).mem_iff.1 hr)) e he
      · exact hmissev _ _ hmiss e he
    · apply (w.mapRange_perm _ locationRules).mem_iff.1
      rw [horder]
      simp
  · refine ⟨evals tweet.Text
        (w.mapRange (s.trace ++ [Event.checkTweetCalled tweet]) textRules) ++
        evals (locationOf tweet)
          (w.mapRange (s.trace ++ Event.checkTweetCalled tweet ::
              evals tweet.Text
                (w.mapRange (s.trace ++ [Event.checkTweetCalled tweet]) textRules))
            locationRules), [], ?_, ?_, Or.inl ⟨rfl, hallT, hallL⟩⟩
    · rw [hrun]
      simp only [Outcome.state, State.emitAll, List.append_nil]
    · intro e he
      rcases List.mem_append.1 he with he | he
      · exact hmissev _ _
          (fun r hr => hallT r ((w.mapRange_perm _ _).mem_iff.1 hr)) e he
      · exact hmissev _ _
          (fun r hr => hallL r ((w.mapRange_perm _ _).mem_iff.1 hr)) e he

/-- A list with exactly one element satisfying `H` splits around it in
one way only. -/
theorem split_unique {α : Type} (H : α → Prop) (X Y a b : List α) (h m : α)
    (hX : ∀ x ∈ X, ¬ H x) (hY : ∀ y ∈ Y, ¬ H y) (hm : H m)
    (heq : X ++ h :: Y = a ++ m :: b) : b = Y := by
  rcases List.append_eq_append_iff.1 heq with ⟨a', _, h2⟩ | ⟨c', h1, h2⟩
  · cases a' with
    | nil =>
      simp only [List.nil_append] at h2
      injection h2 with _ h3
      exact h3.symm
    | cons x a'' =>
      simp only [List.cons_append] at h2
      injection h2 with _ h3
      exact absurd hm (hY m (by rw [h3]; simp))
  · cases c' with
    | nil =>
      simp only [List.nil_append] at h2
      injection h2 with _ h3
    | cons x c'' =>
      simp only [List.cons_append] at h2
      injection h2 with h3 _
      exact absurd hm (hX m (by rw [h1, h3]; simp))

/-- Among the events after the block request, each kind but `println`
occurs at most once. -/
theorem countP_action (rest : List Event) (h : rest.map Event.kind ∈ actionShapes) (k : Kind)
    (hk : k ≠ Kind.println) : rest.countP (fun e => e.kind == k) ≤ 1 := by
  have hc : rest.countP (fun e => e.kind == k) = (rest.map Event.kind).countP (· == k) := by
    rw [List.countP_map]; rfl
  rw [hc]
  simp only [actionShapes, List.mem_cons, List.mem_singleton, List.not_mem_nil, or_false] at h
  rcases h with h | h | h | h <;> rw [h] <;> cases k <;> first | decide | exact absurd rfl hk

/-- Evaluations that miss are `matchString` events. -/
theorem misses_kind (misses : List Event)
    (h : ∀ e ∈ misses, ∃ p subject, e = Event.matchString p subject ∧
      MatchString p subject = .ok false) :
    ∀ e ∈ misses, e.kind = Kind.matchString := by
  intro e he
  obtain ⟨p, subject, rfl, _⟩ := h e he
  rfl

/-- Who is blocked and with which label, read off the trace of one call
of `checkTweet`: nobody when every rule of both tables misses; otherwise
`blockUser` is entered once, with the label of a text rule that hits the
body or, when no text rule hits, of a location rule that hits the place,
and one block request is issued. -/
theorem checkTweet_label (w : World) (tweet : Tweet) (cfg : Config) (api : TwitterApi)
    (s : State) :
    ∃ evs, (checkTweet w tweet cfg api s).state.trace = s.trace ++ evs ∧
      ((evs.filter (fun e => e.kind == Kind.blockUserCalled) = [] ∧
          (∀ e ∈ evs, e.kind ≠ Kind.blockUserId) ∧
          (∀ r ∈ textRules, MatchString r.1 tweet.Text = .ok false) ∧
          (∀ r ∈ locationRules, MatchString r.1 (locationOf tweet) = .ok false)) ∨
        ∃ p l, evs.filter (fun e => e.kind == Kind.blockUserCalled) =
            [Event.blockUserCalled tweet l] ∧
          (∃ e ∈ evs, e.kind = Kind.blockUserId) ∧
          (((p, l) ∈ textRules ∧ MatchString p tweet.Text = .ok true) ∨
            ((p, l) ∈ locationRules ∧ MatchString p (locationOf tweet) = .ok true ∧
              ∀ r ∈ textRules, MatchString r.1 tweet.Text = .ok false))) := by
  obtain ⟨misses, tail, htrace, hmisses, htail⟩ := checkTweet_trace w tweet cfg api s
  have hmk := misses_kind misses hmisses
  refine ⟨_, htrace, ?_⟩
  rcases htail with ⟨rfl, hT, hL⟩ | ⟨p, subject, l, rest, rfl, hhit, hshape, _, _, hrule⟩
  · left
    refine ⟨?_, ?_, hT, hL⟩
    · rw [List.filter_eq_nil_iff]
      intro e he
      rcases List.mem_cons.1 he with rfl | he
      · simp [Event.kind]
      · rw [List.append_nil] at he
        simp [hmk e he]
    · intro e he
      rcases List.mem_cons.1 he with rfl | he
      · simp [Event.kind]
      · rw [List.append_nil] at he
        simp [hmk e he]
  · right
    refine ⟨p, l, ?_, ⟨Event.blockUserId s.consumerKey s.consumerSecret api tweet.User.Id,
      by simp, rfl⟩, ?_⟩
    · have hm : misses.filter (fun e => e.kind == Kind.blockUserCalled) = [] := by
        rw [List.filter_eq_nil_iff]
        intro e he
        simp [hmk e he]
      rw [List.filter_cons_of_neg (by simp [Event.kind]), List.filter_append, hm,
        List.nil_append, List.filter_cons_of_neg (by simp [Event.kind]),
        List.filter_cons_of_pos (by simp [Event.kind]),
        List.filter_cons_of_neg (by simp [Event.kind]),
        filter_action rest hshape Kind.blockUserCalled (by decide) (by decide) (by decide)]
    · rcases hrule with ⟨hin, rfl⟩ | ⟨hin, rfl, hT⟩
      · exact Or.inl ⟨hin, hhit⟩
      · exact Or.inr ⟨hin, hhit, hT⟩

/-- When some rule hits and every rule that can decide the label carries
the label `L`, `blockUser` is entered exactly once, with `L`. -/
theorem checkTweet_label_of (w : World) (tweet : Tweet) (cfg : Config) (api : TwitterApi)
    (s : State) (L : String)
    (hsome : (∃ r ∈ textRules, MatchString r.1 tweet.Text = .ok true) ∨
      (∃ r ∈ locationRules, MatchString r.1 (locationOf tweet) = .ok true))
    (hT : ∀ r ∈ textRules, MatchString r.1 tweet.Text = .ok true → r.2 = L)
    (hL : (∀ r ∈ textRules, MatchString r.1 tweet.Text = .ok false) →
      ∀ r ∈ locationRules, MatchString r.1 (locationOf tweet) = .ok true → r.2 = L) :
    ∃ evs, (checkTweet w tweet cfg api s).state.trace = s.trace ++ evs ∧
      evs.filter (fun e => e.kind == Kind.blockUserCalled) =
        [Event.blockUserCalled tweet L] := by
  obtain ⟨evs, htrace, hcase⟩ := checkTweet_label w tweet cfg api s
  refine ⟨evs, htrace, ?_⟩
  rcases hcase with ⟨_, _, hallT, hallL⟩ | ⟨p, l, hcalls, _, hrule⟩
  · exfalso
    rcases hsome with ⟨r, hr, hhit⟩ | ⟨r, hr, hhit⟩
    · rw [hallT r hr] at hhit; cases hhit
    · rw [hallL r hr] at hhit; cases hhit
  · rcases hrule with ⟨hin, hhit⟩ | ⟨hin, hhit, hallT⟩
    · rw [hcalls, show l = L from hT (p, l) hin hhit]
    · rw [hcalls, show l = L from hL hallT (p, l) hin hhit]

set_option maxRecDepth 100000 in
/-- The matcher on a few inputs: case is folded (also onto the long s),
`^` and `$` anchor at the ends of the text, `.+` needs at least one rune
and does not cross a line break. -/
theorem MatchString_examples :
    MatchString "(?i)NASCAR" "go nascar" = .ok true ∧
    MatchString "(?i)NASCAR" "NA\u017fCAR" = .ok true ∧
    MatchString "(?i)NASCAR" "NASCA R" = .ok false ∧
    MatchString "(?i)^@Denny's$" "@DENNY'S" = .ok true ∧
    MatchString "(?i)^@Denny's$" "hi @Denny's" = .ok false ∧
    MatchString "(?i)^@Denny's$" "@Denny's!" = .ok false ∧
    MatchString "(?i)@Denny's.+(food|IHOP)" "@Denny's food" = .ok true ∧
    MatchString "(?i)@Denny's.+(food|IHOP)" "@Denny'sfood" = .ok false ∧
    MatchString "(?i)@Denny's.+(food|IHOP)" "@Denny's\nfood" = .ok false ∧
    MatchString "(?i)(fam |smash).+@Denny's" "fam at @dennY's" = .ok true ∧
    MatchString "(?i)(" "x" = .error "error parsing regexp: missing closing )" := by
  decide!

theorem locationRules_label : ∀ r ∈ locationRules, r.2 = "indonesia" := by decide

/-- An id reads `true` after the loop of `getFriendIDs` exactly when it
was in the list or read `true` before. -/
theorem markIds_eq_true (ids : List Int) (m : IdSet) (k : Int) :
    markIds ids m k = true ↔ k ∈ ids ∨ m k = true := by
  induction ids generalizing m with
  | nil => simp [markIds]
  | cons id rest ih =>
    rw [markIds, ih]
    by_cases h : k = id
    · simp [h]
    · simp [h]

/-- The events of one call of `checkTweet` start with its entry, and the
function is not entered again. -/
theorem checkTweet_segment (w : World) (tweet : Tweet) (cfg : Config) (api : TwitterApi)
    (s : State) :
    ∃ rest, (checkTweet w tweet cfg api s).state.trace =
        s.trace ++ Event.checkTweetCalled tweet :: rest ∧
      ∀ e ∈ rest, e.kind ≠ Kind.checkTweetCalled := by
  obtain ⟨misses, tail, htrace, hmisses, htail⟩ := checkTweet_trace w tweet cfg api s
  have hmk := misses_kind misses hmisses
  refine ⟨misses ++ tail, htrace, ?_⟩
  intro e he
  rcases List.mem_append.1 he with he | he
  · simp [hmk e he]
  rcases htail with ⟨rfl, _, _⟩ | ⟨p, subject, l, rest, rfl, _, hshape, _, _, _⟩
  · cases he
  · rcases List.mem_cons.1 he with rfl | he
    · simp [Event.kind]
    rcases List.mem_cons.1 he with rfl | he
    · simp [Event.kind]
    rcases List.mem_cons.1 he with rfl | he
    · simp [Event.kind]
    · rcases actionShapes_kind rest hshape e he with h | h | h <;> rw [h] <;> decide

/-! ## The claims -/

set_option maxRecDepth 100000 in
/-- C1, counterexample.  The body "NASCAR Cagur" is matched by the rule
`(?i)NASCAR` (label dennyhamlin) and by the later-declared `(?i)Cagur`
(label dennycagur).  When the `range` loop starts at the first entry of
the table `blockUser` gets dennyhamlin; when it starts at the third entry
the very same mention gets dennycagur, the label of the later rule. -/
theorem checkTweet_label_varies_with_range_order :
    MatchString "(?i)NASCAR" "NASCAR Cagur" = .ok true ∧
    MatchString "(?i)Cagur" "NASCAR Cagur" = .ok true ∧
    textRules.indexOf ("(?i)NASCAR", "dennyhamlin") <
      textRules.indexOf ("(?i)Cagur", "dennycagur") ∧
    Event.blockUserCalled (mention "7" "NASCAR Cagur" 42 "fan") "dennyhamlin" ∈
      (checkTweet (sampleWorld 0 false [] [] []) (mention "7" "NASCAR Cagur" 42 "fan")
        sampleConfig sampleApi sampleState).state.trace ∧
    Event.blockUserCalled (mention "7" "NASCAR Cagur" 42 "fan") "dennycagur" ∈
      (checkTweet (sampleWorld 2 false [] [] []) (mention "7" "NASCAR Cagur" 42 "fan")
        sampleConfig sampleApi sampleState).state.trace ∧
    Event.blockUserCalled (mention "7" "NASCAR Cagur" 42 "fan") "dennyhamlin" ∉
      (checkTweet (sampleWorld 2 false [] [] []) (mention "7" "NASCAR Cagur" 42 "fan")
        sampleConfig sampleApi sampleState).state.trace := by
  decide!

/-- C1, amended.  The label `checkTweet` passes to `blockUser` is the label
of the first rule that matches the body in the order in which this run's
`range` loop visits `textRules`: if the loop visits `pre`, then
`(rule, ruleName)`, and no rule of `pre` matches the body while `rule`
does, then `blockUser` is called exactly once, with `ruleName`. -/
theorem checkTweet_label_is_first_hit_in_range_order (w : World) (tweet : Tweet)
    (cfg : Config) (api : TwitterApi) (s : State) (pre : List (String × String))
    (rule ruleName : String) (post : List (String × String))
    (horder : w.mapRange (s.trace ++ [Event.checkTweetCalled tweet]) textRules =
      pre ++ (rule, ruleName) :: post)
    (hmiss : ∀ r ∈ pre, MatchString r.1 tweet.Text ≠ .ok true)
    (hhit : MatchString rule tweet.Text = .ok true) :
    ∃ evs, (checkTweet w tweet cfg api s).state.trace = s.trace ++ evs ∧
      evs.filter (fun e => e.kind == Kind.blockUserCalled) =
        [Event.blockUserCalled tweet ruleName] := by
  have hpre : ∀ r ∈ pre, MatchString r.1 tweet.Text = .ok false := by
    intro r hr
    refine miss_of_not_hit _ _ ?_ (hmiss r hr)
    apply mapRange_compiles w (s.trace ++ [Event.checkTweetCalled tweet]) textRules
      textRules_compile
    rw [horder]
    simp [hr]
  obtain ⟨rest, htrace, hshape, _⟩ :=
    checkTweet_text_hit_trace w tweet cfg api s pre rule ruleName post horder hpre hhit
  refine ⟨_, htrace, ?_⟩
  exact filter_blockUserCalled _ _ _ _ _ _ _ _ hshape

set_option maxRecDepth 100000 in
/-- C1, amended, at a concrete run: the loop visits the table from its
first entry, `(?i)Hamlin` misses "NASCAR Cagur" and `(?i)NASCAR` hits, so
the label is dennyhamlin. -/
theorem checkTweet_label_is_first_hit_in_range_order_witness :
    ∃ evs, (checkTweet (sampleWorld 0 false [] [] []) (mention "7" "NASCAR Cagur" 42 "fan")
        sampleConfig sampleApi sampleState).state.trace = sampleState.trace ++ evs ∧
      evs.filter (fun e => e.kind == Kind.blockUserCalled) =
        [Event.blockUserCalled (mention "7" "NASCAR Cagur" 42 "fan") "dennyhamlin"] :=
  checkTweet_label_is_first_hit_in_range_order (sampleWorld 0 false [] [] [])
    (mention "7" "NASCAR Cagur" 42 "fan") sampleConfig sampleApi sampleState
    [("(?i)Hamlin", "dennyhamlin")] "(?i)NASCAR" "dennyhamlin" (textRules.drop 2)
    (by decide!) (by decide!) (by decide!)

/-- C2.  When some text rule matches the body, `blockUser` is called
exactly once, with the label of a text rule that matches the body, and no
location rule is evaluated, whatever the place of the mention. -/
theorem checkTweet_text_rules_take_precedence (w : World) (tweet : Tweet) (cfg : Config)
    (api : TwitterApi) (s : State)
    (hbody : ∃ r ∈ textRules, MatchString r.1 tweet.Text = .ok true) :
    ∃ evs, (checkTweet w tweet cfg api s).state.trace = s.trace ++ evs ∧
      (∃ r ∈ textRules, MatchString r.1 tweet.Text = .ok true ∧
        evs.filter (fun e => e.kind == Kind.blockUserCalled) =
          [Event.blockUserCalled tweet r.2]) ∧
      (∀ r ∈ locationRules, ∀ subject, Event.matchString r.1 subject ∉ evs) := by
  have hT := split_first_hit tweet.Text
    (w.mapRange (s.trace ++ [Event.checkTweetCalled tweet]) textRules)
    (mapRange_compiles w _ _ textRules_compile)
  rcases hT with hall | ⟨pre, rule, ruleName, post, horder, hmiss, hhit⟩
  · obtain ⟨r, hr, hm⟩ := hbody
    have := hall r ((w.mapRange_perm _ _).mem_iff.2 hr)
    rw [hm] at this
    cases this
  · obtain ⟨rest, htrace, hshape, _⟩ :=
      checkTweet_text_hit_trace w tweet cfg api s pre rule ruleName post horder hmiss hhit
    have hmem : ∀ r ∈ pre ++ [(rule, ruleName)], r ∈ textRules := by
      intro r hr
      apply (w.mapRange_perm (s.trace ++ [Event.checkTweetCalled tweet]) textRules).mem_iff.1
      rw [horder]
      simp only [List.mem_append, List.mem_singleton] at hr
      rcases hr with hr | rfl <;> simp [*]
    refine ⟨_, htrace, ⟨(rule, ruleName), hmem _ (by simp), hhit, ?_⟩, ?_⟩
    · exact filter_blockUserCalled _ _ _ _ _ _ _ _ hshape
    · intro r hr subject hin
      simp only [List.mem_cons, List.mem_append, reduceCtorEq, false_or] at hin
      rcases hin with hin | hin
      · obtain ⟨t, ht, heq⟩ := (mem_evals _ _ _).1 hin
        injection heq with h1 h2
        exact rule_tables_disjoint r hr t (hmem t ht) h1
      · have := actionShapes_kind rest hshape _ hin
        simp [Event.kind] at this

set_option maxRecDepth 100000 in
/-- C2 at a concrete mention: the body matches `(?i)NASCAR` and the place
matches `(?i)Jakarta`. -/
theorem checkTweet_text_rules_take_precedence_witness :
    ∃ evs, (checkTweet (sampleWorld 3 false [] [] [])
        ⟨"9", "Go NASCAR!", ⟨42, "fan"⟩, ⟨"Indonesia", "Jakarta", "Jakarta, Indonesia"⟩⟩
        sampleConfig sampleApi sampleState).state.trace = sampleState.trace ++ evs ∧
      (∃ r ∈ textRules, MatchString r.1 "Go NASCAR!" = .ok true ∧
        evs.filter (fun e => e.kind == Kind.blockUserCalled) =
          [Event.blockUserCalled
            ⟨"9", "Go NASCAR!", ⟨42, "fan"⟩, ⟨"Indonesia", "Jakarta", "Jakarta, Indonesia"⟩⟩
            r.2]) ∧
      (∀ r ∈ locationRules, ∀ subject, Event.matchString r.1 subject ∉ evs) :=
  checkTweet_text_rules_take_precedence (sampleWorld 3 false [] [] [])
    ⟨"9", "Go NASCAR!", ⟨42, "fan"⟩, ⟨"Indonesia", "Jakarta", "Jakarta, Indonesia"⟩⟩
    sampleConfig sampleApi sampleState
    ⟨("(?i)NASCAR", "dennyhamlin"), by decide!, by decide!⟩

/-- C6.  `blockUser` issues the block request first.  When the request
fails the process ends with "Failed to block user" and the trace ends at
the block request: no post was attempted.  When `blockUser` returns, its
events are the block request, then the post, then the echo of the post. -/
theorem blockUser_blocks_then_notifies (w : World) (tweet : Tweet) (ruleName : String)
    (cfg : Config) (api : TwitterApi) (s : State) :
    (∀ err, w.BlockUserId (s.trace ++ [Event.blockUserCalled tweet ruleName]) tweet.User.Id =
        .error err →
      ∃ s', blockUser w tweet ruleName cfg api s =
          .fatal ("Failed to block user: " ++ err) s' ∧
        s'.trace = s.trace ++ [Event.blockUserCalled tweet ruleName,
          Event.blockUserId s.consumerKey s.consumerSecret api tweet.User.Id]) ∧
    (∀ s', blockUser w tweet ruleName cfg api s = .ok () s' →
      ∃ key secret api2 status params line,
        s'.trace = s.trace ++ [Event.blockUserCalled tweet ruleName,
          Event.blockUserId s.consumerKey s.consumerSecret api tweet.User.Id,
          Event.postTweet key secret api2 status params, Event.println line]) ∧
    (∃ rest, (blockUser w tweet ruleName cfg api s).state.trace =
        s.trace ++ Event.blockUserCalled tweet ruleName ::
          Event.blockUserId s.consumerKey s.consumerSecret api tweet.User.Id :: rest ∧
      ∀ e ∈ rest, e.kind ≠ Kind.blockUserId) := by
  refine ⟨?_, ?_, ?_⟩
  · intro err herr
    unfold blockUser
    simp only [State.emit, herr]
    exact ⟨_, rfl, by simp⟩
  · intro s' hok
    unfold blockUser at hok
    simp only [State.emit] at hok
    split at hok
    · cases hok
    · split at hok
      · cases hok
      · injection hok with _ h2
        subst h2
        exact ⟨_, _, _, _, _, _, by
          rw [List.append_assoc, List.append_assoc, List.append_assoc]; rfl⟩
  · unfold blockUser
    simp only [State.emit]
    split
    · exact ⟨[], by simp [Outcome.state], by simp⟩
    · split
      · exact ⟨_, by simp [Outcome.state]; rfl, by simp [Event.kind]⟩
      · exact ⟨_, by simp [Outcome.state]; rfl, by simp [Event.kind]⟩

set_option maxRecDepth 100000 in
/-- C6 at two concrete runs: one in which the block request is refused and
one in which every request succeeds. -/
theorem blockUser_blocks_then_notifies_witness :
    (∃ s', blockUser (sampleWorld 0 true [] [] []) (mention "7" "Go NASCAR!" 42 "fan")
          "dennyhamlin" sampleConfig sampleApi sampleState =
          .fatal ("Failed to block user: " ++ "twitter: 403") s' ∧
        s'.trace = sampleState.trace ++
          [Event.blockUserCalled (mention "7" "Go NASCAR!" 42 "fan") "dennyhamlin",
            Event.blockUserId sampleState.consumerKey sampleState.consumerSecret sampleApi
              (mention "7" "Go NASCAR!" 42 "fan").User.Id]) ∧
    (∃ key secret api2 status params line,
      (blockUser (sampleWorld 0 false [] [] []) (mention "7" "Go NASCAR!" 42 "fan")
          "dennyhamlin" sampleConfig sampleApi sampleState).state.trace =
        sampleState.trace ++
          [Event.blockUserCalled (mention "7" "Go NASCAR!" 42 "fan") "dennyhamlin",
            Event.blockUserId sampleState.consumerKey sampleState.consumerSecret sampleApi
              (mention "7" "Go NASCAR!" 42 "fan").User.Id,
            Event.postTweet key secret api2 status params, Event.println line]) :=
  ⟨(blockUser_blocks_then_notifies (sampleWorld 0 true [] [] [])
      (mention "7" "Go NASCAR!" 42 "fan") "dennyhamlin" sampleConfig sampleApi
      sampleState).1 "twitter: 403" (by decide!),
    (blockUser_blocks_then_notifies (sampleWorld 0 false [] [] [])
      (mention "7" "Go NASCAR!" 42 "fan") "dennyhamlin" sampleConfig sampleApi
      sampleState).2.1 _ (by decide!)⟩

/-- C7.  When the block action returns `user`, `blockUser` posts, from the
second account, exactly the text
`"@" + user.ScreenName + ": Hi! You've been blocked by @" + MyScreenName +
". Reason: " + ReasonsURL + "#" + ruleName`, and posts nothing else; the
text contains the handle, the reasons URL `ReasonsURL + "#" + ruleName` and
the fragment `"#" + ruleName`. -/
theorem blockUser_notification_text (w : World) (tweet : Tweet) (ruleName : String)
    (cfg : Config) (api : TwitterApi) (s : State) (user : User)
    (hblock : w.BlockUserId (s.trace ++ [Event.blockUserCalled tweet ruleName])
      tweet.User.Id = .ok user) :
    ∃ status params rest,
      status = "@" ++ user.ScreenName ++ ": Hi! You've been blocked by @" ++
        cfg.Settings.MyScreenName ++ ". Reason: " ++ cfg.Settings.ReasonsURL ++ "#" ++
        ruleName ∧
      (blockUser w tweet ruleName cfg api s).state.trace =
        s.trace ++ Event.blockUserCalled tweet ruleName ::
          Event.blockUserId s.consumerKey s.consumerSecret api tweet.User.Id ::
          Event.postTweet cfg.Auth2.ConsumerKey cfg.Auth2.ConsumerSecret
            ⟨cfg.Auth2.AccessToken, cfg.Auth2.AccessTokenSecret⟩ status params :: rest ∧
      (∀ e ∈ rest, e.kind ≠ Kind.postTweet) ∧
      user.ScreenName.data <:+: status.data ∧
      (cfg.Settings.ReasonsURL ++ "#" ++ ruleName).data <:+: status.data ∧
      ("#" ++ ruleName).data <:+: status.data := by
  obtain ⟨rest, h1, h2⟩ := blockUser_post w tweet ruleName cfg api s user hblock
  refine ⟨_, _, rest, rfl, h1, ?_, ?_, ?_, ?_⟩
  · intro e he
    rcases h2 with rfl | ⟨line, rfl⟩
    · cases he
    · rw [List.mem_singleton.1 he]
      simp [Event.kind]
  · exact ⟨['@'], (": Hi! You've been blocked by @" ++ cfg.Settings.MyScreenName ++
      ". Reason: " ++ cfg.Settings.ReasonsURL ++ "#" ++ ruleName).data, by
      simp [String.data_append]⟩
  · exact ⟨("@" ++ user.ScreenName ++ ": Hi! You've been blocked by @" ++
      cfg.Settings.MyScreenName ++ ". Reason: ").data, [], by simp [String.data_append]⟩
  · exact ⟨("@" ++ user.ScreenName ++ ": Hi! You've been blocked by @" ++
      cfg.Settings.MyScreenName ++ ". Reason: " ++ cfg.Settings.ReasonsURL).data, [], by
      simp [String.data_append]⟩

set_option maxRecDepth 100000 in
/-- C7 at a concrete run: the block action returns the handle "fan". -/
theorem blockUser_notification_text_witness :
    ∃ status params rest,
      status = "@" ++ "fan" ++ ": Hi! You've been blocked by @" ++
        sampleConfig.Settings.MyScreenName ++ ". Reason: " ++
        sampleConfig.Settings.ReasonsURL ++ "#" ++ "dennyhamlin" ∧
      (blockUser (sampleWorld 0 false [] [] []) (mention "7" "Go NASCAR!" 42 "fan")
          "dennyhamlin" sampleConfig sampleApi sampleState).state.trace =
        sampleState.trace ++
          Event.blockUserCalled (mention "7" "Go NASCAR!" 42 "fan") "dennyhamlin" ::
          Event.blockUserId sampleState.consumerKey sampleState.consumerSecret sampleApi
            (mention "7" "Go NASCAR!" 42 "fan").User.Id ::
          Event.postTweet sampleConfig.Auth2.ConsumerKey sampleConfig.Auth2.ConsumerSecret
            ⟨sampleConfig.Auth2.AccessToken, sampleConfig.Auth2.AccessTokenSecret⟩
            status params :: rest ∧
      (∀ e ∈ rest, e.kind ≠ Kind.postTweet) ∧
      "fan".data <:+: status.data ∧
      (sampleConfig.Settings.ReasonsURL ++ "#" ++ "dennyhamlin").data <:+: status.data ∧
      ("#" ++ "dennyhamlin").data <:+: status.data :=
  blockUser_notification_text (sampleWorld 0 false [] [] [])
    (mention "7" "Go NASCAR!" 42 "fan") "dennyhamlin" sampleConfig sampleApi sampleState
    ⟨42, "fan"⟩ (by decide!)

/-- C8.  The mail `emailNotification` composes and sends contains the text
of the mention and the status URL
`"https://twitter.com/" + ScreenName + "/status/" + IdStr`.  A call of
`checkTweet` sends no mail when `SendEmails` is off; a mail it sends is
that mail, and is sent only with `SendEmails` on and after a rule of one
of the tables has matched. -/
theorem emailNotification_body_and_gate (w : World) (tweet : Tweet) (ruleName : String)
    (cfg : Config) (api : TwitterApi) (s : State) :
    (∃ body addr auth,
      (emailNotification w tweet ruleName cfg s).state.trace =
        s.trace ++ [Event.println body,
          Event.sendMail addr auth cfg.Email.FromAddress [cfg.Email.AdminAddress] body] ∧
      tweet.Text.data <:+: body.data ∧
      ("https://twitter.com/" ++ tweet.User.ScreenName ++ "/status/" ++ tweet.IdStr).data <:+:
        body.data) ∧
    (∃ evs, (checkTweet w tweet cfg api s).state.trace = s.trace ++ evs ∧
      (cfg.Email.SendEmails = false → ∀ e ∈ evs, e.kind ≠ Kind.sendMail) ∧
      (∀ e ∈ evs, e.kind = Kind.sendMail →
        cfg.Email.SendEmails = true ∧
        ((∃ r ∈ textRules, MatchString r.1 tweet.Text = .ok true) ∨
          (∃ r ∈ locationRules, MatchString r.1
            (tweet.Place.Country ++ " " ++ tweet.Place.Name ++ " " ++ tweet.Place.FullName) =
              .ok true)) ∧
        ∃ body addr auth,
          e = Event.sendMail addr auth cfg.Email.FromAddress [cfg.Email.AdminAddress] body ∧
          tweet.Text.data <:+: body.data ∧
          ("https://twitter.com/" ++ tweet.User.ScreenName ++ "/status/" ++
            tweet.IdStr).data <:+: body.data)) := by
  refine ⟨⟨mailBody tweet cfg, _, _, emailNotification_trace w tweet ruleName cfg s,
    mailBody_contains_text tweet cfg, mailBody_contains_status_url tweet cfg⟩, ?_⟩
  obtain ⟨misses, tail, htrace, hmisses, htail⟩ := checkTweet_trace w tweet cfg api s
  have key : ∀ e ∈ Event.checkTweetCalled tweet :: (misses ++ tail), e.kind = Kind.sendMail →
      cfg.Email.SendEmails = true ∧
      ((∃ r ∈ textRules, MatchString r.1 tweet.Text = .ok true) ∨
        (∃ r ∈ locationRules, MatchString r.1 (locationOf tweet) = .ok true)) ∧
      e = mailEvent tweet cfg := by
    intro e he hk
    rcases List.mem_cons.1 he with rfl | he
    · simp [Event.kind] at hk
    rcases List.mem_append.1 he with he | he
    · obtain ⟨p, subject, rfl, _⟩ := hmisses e he
      simp [Event.kind] at hk
    rcases htail with ⟨rfl, _, _⟩ | ⟨p, subject, l, rest, rfl, hhit, hshape, hflag, hmail, hrule⟩
    · cases he
    · rcases List.mem_cons.1 he with rfl | he
      · simp [Event.kind] at hk
      rcases List.mem_cons.1 he with rfl | he
      · simp [Event.kind] at hk
      rcases List.mem_cons.1 he with rfl | he
      · simp [Event.kind] at hk
      refine ⟨hflag (hk ▸ List.mem_map_of_mem _ he), ?_, hmail e he hk⟩
      rcases hrule with ⟨hin, rfl⟩ | ⟨hin, rfl, _⟩
      · exact Or.inl ⟨(p, l), hin, hhit⟩
      · exact Or.inr ⟨(p, l), hin, hhit⟩
  refine ⟨_, htrace, ?_, ?_⟩
  · intro hoff e he hk
    have := (key e he hk).1
    rw [hoff] at this
    cases this
  · intro e he hk
    obtain ⟨h1, h2, h3⟩ := key e he hk
    exact ⟨h1, h2, mailBody tweet cfg, _, _, h3, mailBody_contains_text tweet cfg,
      mailBody_contains_status_url tweet cfg⟩

/-- C9.  When the consumer key pair is the first account's before a call
of `blockUser` that returns, it is the first account's again afterwards:
the block request went out under that pair, the post under the pair of the
second account, and the state returned holds the pair it started with. -/
theorem blockUser_restores_primary_identity (w : World) (tweet : Tweet) (ruleName : String)
    (cfg : Config) (api : TwitterApi) (s s' : State)
    (hkey : s.consumerKey = cfg.Auth.ConsumerKey)
    (hsecret : s.consumerSecret = cfg.Auth.ConsumerSecret)
    (hok : blockUser w tweet ruleName cfg api s = .ok () s') :
    s'.consumerKey = cfg.Auth.ConsumerKey ∧ s'.consumerSecret = cfg.Auth.ConsumerSecret ∧
    s'.consumerKey = s.consumerKey ∧ s'.consumerSecret = s.consumerSecret ∧
    ∃ status params line, s'.trace = s.trace ++
      [Event.blockUserCalled tweet ruleName,
        Event.blockUserId cfg.Auth.ConsumerKey cfg.Auth.ConsumerSecret api tweet.User.Id,
        Event.postTweet cfg.Auth2.ConsumerKey cfg.Auth2.ConsumerSecret
          ⟨cfg.Auth2.AccessToken, cfg.Auth2.AccessTokenSecret⟩ status params,
        Event.println line] := by
  unfold blockUser at hok
  simp only [State.emit] at hok
  split at hok
  · cases hok
  · split at hok
    · cases hok
    · injection hok with _ h2
      subst h2
      refine ⟨rfl, rfl, hkey.symm, hsecret.symm, ?_⟩
      rw [← hkey, ← hsecret]
      exact ⟨_, _, _, by
        show _ ++ _ ++ _ ++ _ ++ _ = _
        rw [List.append_assoc, List.append_assoc, List.append_assoc]; rfl⟩

set_option maxRecDepth 100000 in
/-- C9 at a concrete run in which every request succeeds. -/
theorem blockUser_restores_primary_identity_witness :
    (blockUser (sampleWorld 0 false [] [] []) (mention "7" "Go NASCAR!" 42 "fan")
        "dennyhamlin" sampleConfig sampleApi sampleState).state.consumerKey =
      sampleConfig.Auth.ConsumerKey ∧
    (blockUser (sampleWorld 0 false [] [] []) (mention "7" "Go NASCAR!" 42 "fan")
        "dennyhamlin" sampleConfig sampleApi sampleState).state.consumerSecret =
      sampleConfig.Auth.ConsumerSecret :=
  have h := blockUser_restores_primary_identity (sampleWorld 0 false [] [] [])
    (mention "7" "Go NASCAR!" 42 "fan") "dennyhamlin" sampleConfig sampleApi sampleState
    (blockUser (sampleWorld 0 false [] [] []) (mention "7" "Go NASCAR!" 42 "fan")
      "dennyhamlin" sampleConfig sampleApi sampleState).state
    (by decide!) (by decide!) (by decide!)
  ⟨h.1, h.2.1⟩

/-- C5.  One call of `checkTweet` issues at most one block request, at
most one post and at most one mail, and enters `blockUser` at most once;
and once an evaluation of a rule has matched, no further rule is
evaluated. -/
theorem checkTweet_at_most_one_action (w : World) (tweet : Tweet) (cfg : Config)
    (api : TwitterApi) (s : State) :
    ∃ evs, (checkTweet w tweet cfg api s).state.trace = s.trace ++ evs ∧
      evs.countP (fun e => e.kind == Kind.blockUserId) ≤ 1 ∧
      evs.countP (fun e => e.kind == Kind.postTweet) ≤ 1 ∧
      evs.countP (fun e => e.kind == Kind.sendMail) ≤ 1 ∧
      evs.countP (fun e => e.kind == Kind.blockUserCalled) ≤ 1 ∧
      ∀ a p subject b, evs = a ++ Event.matchString p subject :: b →
        MatchString p subject = .ok true → ∀ e ∈ b, e.kind ≠ Kind.matchString := by
  obtain ⟨misses, tail, htrace, hmisses, htail⟩ := checkTweet_trace w tweet cfg api s
  have hmk := misses_kind misses hmisses
  have hcount : ∀ k, k ≠ Kind.println → k ≠ Kind.matchString → k ≠ Kind.checkTweetCalled →
      (Event.checkTweetCalled tweet :: (misses ++ tail)).countP (fun e => e.kind == k) ≤ 1 := by
    intro k h1 h2 h3
    have hm : misses.countP (fun e => e.kind == k) = 0 := by
      rw [List.countP_eq_zero]
      intro e he
      simpa [hmk e he] using fun h => h2 h.symm
    rw [List.countP_cons_of_neg _ _ (by simpa [Event.kind] using fun h => h3 h.symm),
      List.countP_append, hm, Nat.zero_add]
    rcases htail with ⟨rfl, _, _⟩ | ⟨p, subject, l, rest, rfl, _, hshape, _, _, _⟩
    · simp
    · rw [List.countP_cons_of_neg _ _ (by simpa [Event.kind] using fun h => h2 h.symm)]
      have hr := countP_action rest hshape k h1
      have hz : rest.countP (fun e => e.kind == k) = 0 ∨ k ≠ Kind.blockUserCalled ∧
          k ≠ Kind.blockUserId := by
        by_cases hk1 : k = Kind.blockUserCalled
        · left
          rw [List.countP_eq_zero]
          intro e he
          rcases actionShapes_kind rest hshape e he with h | h | h <;> rw [h, hk1] <;> decide
        by_cases hk2 : k = Kind.blockUserId
        · left
          rw [List.countP_eq_zero]
          intro e he
          rcases actionShapes_kind rest hshape e he with h | h | h <;> rw [h, hk2] <;> decide
        · exact Or.inr ⟨hk1, hk2⟩
      rcases hz with hz | ⟨hk1, hk2⟩
      · simp only [List.countP_cons, hz]
        cases k <;> simp [Event.kind]
      · rw [List.countP_cons_of_neg _ _ (by simpa [Event.kind] using fun h => hk1 h.symm),
          List.countP_cons_of_neg _ _ (by simpa [Event.kind] using fun h => hk2 h.symm)]
        exact hr
  refine ⟨_, htrace, hcount _ (by decide) (by decide) (by decide),
    hcount _ (by decide) (by decide) (by decide), hcount _ (by decide) (by decide) (by decide),
    hcount _ (by decide) (by decide) (by decide), ?_⟩
  intro a p subject b heq hhit
  have hX : ∀ x ∈ Event.checkTweetCalled tweet :: misses,
      ¬ ∃ q t, x = Event.matchString q t ∧ MatchString q t = .ok true := by
    rintro x hx ⟨q, t, rfl, hq⟩
    rcases List.mem_cons.1 hx with hx | hx
    · cases hx
    · obtain ⟨q', t', heq', hq'⟩ := hmisses _ hx
      injection heq' with e1 e2
      subst e1 e2
      rw [hq] at hq'
      cases hq'
  rcases htail with ⟨rfl, _, _⟩ | ⟨p', subject', l, rest, rfl, _, hshape, _, _, _⟩
  · exfalso
    refine hX (Event.matchString p subject) ?_ ⟨p, subject, rfl, hhit⟩
    rw [List.append_nil] at heq
    rw [heq]
    simp
  · have hY : ∀ y ∈ Event.blockUserCalled tweet l ::
        Event.blockUserId s.consumerKey s.consumerSecret api tweet.User.Id :: rest,
        ¬ ∃ q t, y = Event.matchString q t ∧ MatchString q t = .ok true := by
      rintro y hy ⟨q, t, rfl, _⟩
      rcases List.mem_cons.1 hy with hy | hy
      · cases hy
      rcases List.mem_cons.1 hy with hy | hy
      · cases hy
      · have := actionShapes_kind rest hshape _ hy
        simp [Event.kind] at this
    have hb := split_unique _ (Event.checkTweetCalled tweet :: misses) _ a b
      (Event.matchString p' subject') (Event.matchString p subject) hX hY
      ⟨p, subject, rfl, hhit⟩ (by rw [← heq]; simp)
    subst hb
    intro e he
    rcases List.mem_cons.1 he with rfl | he
    · simp [Event.kind]
    rcases List.mem_cons.1 he with rfl | he
    · simp [Event.kind]
    · rcases actionShapes_kind rest hshape e he with h | h | h <;> rw [h] <;> decide

set_option maxRecDepth 100000 in
/-- C4.  Under every visiting order of the tables: a mention with body
"Go NASCAR!" is blocked with label dennyhamlin; one with body
"I love @Denny's breakfast" with label dennysdiner; one whose body matches
no text rule and whose place is country "Indonesia" with empty name and
full name (location string "Indonesia  ") with label indonesia; and for a
mention whose body and place match no rule `blockUser` is not entered and
no block request is issued. -/
theorem checkTweet_classifies_spec_examples (w : World) (cfg : Config) (api : TwitterApi)
    (s : State) :
    (∀ tweet : Tweet, tweet.Text = "Go NASCAR!" →
      ∃ evs, (checkTweet w tweet cfg api s).state.trace = s.trace ++ evs ∧
        evs.filter (fun e => e.kind == Kind.blockUserCalled) =
          [Event.blockUserCalled tweet "dennyhamlin"]) ∧
    (∀ tweet : Tweet, tweet.Text = "I love @Denny's breakfast" →
      ∃ evs, (checkTweet w tweet cfg api s).state.trace = s.trace ++ evs ∧
        evs.filter (fun e => e.kind == Kind.blockUserCalled) =
          [Event.blockUserCalled tweet "dennysdiner"]) ∧
    (∀ tweet : Tweet, (∀ r ∈ textRules, MatchString r.1 tweet.Text ≠ .ok true) →
      tweet.Place = ⟨"Indonesia", "", ""⟩ →
      tweet.Place.Country ++ " " ++ tweet.Place.Name ++ " " ++ tweet.Place.FullName =
        "Indonesia  " ∧
      ∃ evs, (checkTweet w tweet cfg api s).state.trace = s.trace ++ evs ∧
        evs.filter (fun e => e.kind == Kind.blockUserCalled) =
          [Event.blockUserCalled tweet "indonesia"]) ∧
    (∀ tweet : Tweet, (∀ r ∈ textRules, MatchString r.1 tweet.Text ≠ .ok true) →
      (∀ r ∈ locationRules, MatchString r.1
        (tweet.Place.Country ++ " " ++ tweet.Place.Name ++ " " ++ tweet.Place.FullName) ≠
          .ok true) →
      ∃ evs, (checkTweet w tweet cfg api s).state.trace = s.trace ++ evs ∧
        evs.filter (fun e => e.kind == Kind.blockUserCalled) = [] ∧
        ∀ e ∈ evs, e.kind ≠ Kind.blockUserId) := by
  refine ⟨?_, ?_, ?_, ?_⟩
  · intro tweet htext
    have hhit : MatchString "(?i)NASCAR" tweet.Text = .ok true := by rw [htext]; decide!
    refine checkTweet_label_of w tweet cfg api s _
      (Or.inl ⟨("(?i)NASCAR", "dennyhamlin"), by decide, hhit⟩) ?_ ?_
    · rw [htext]; decide!
    · intro hall
      have := hall ("(?i)NASCAR", "dennyhamlin") (by decide)
      rw [hhit] at this
      cases this
  · intro tweet htext
    have hhit : MatchString
        "(?i)@Denny's.+(breakfast|lunch|dinner|food|coffee|milkshake|Grand Slam|diner|waitress|service|smash|IHOP)"
        tweet.Text = .ok true := by rw [htext]; decide!
    refine checkTweet_label_of w tweet cfg api s _
      (Or.inl ⟨("(?i)@Denny's.+(breakfast|lunch|dinner|food|coffee|milkshake|Grand Slam|diner|waitress|service|smash|IHOP)",
        "dennysdiner"), by decide, hhit⟩) ?_ ?_
    · rw [htext]; decide!
    · intro hall
      have := hall
        ("(?i)@Denny's.+(breakfast|lunch|dinner|food|coffee|milkshake|Grand Slam|diner|waitress|service|smash|IHOP)",
          "dennysdiner") (by decide)
      rw [hhit] at this
      cases this
  · intro tweet hbody hplace
    have hloc : locationOf tweet = "Indonesia  " := by
      unfold locationOf
      rw [hplace]
      decide
    refine ⟨hloc, checkTweet_label_of w tweet cfg api s _
      (Or.inr ⟨("(?i)Indonesia", "indonesia"), by decide, by rw [hloc]; decide!⟩) ?_ ?_⟩
    · intro r hr hhit
      exact absurd hhit (hbody r hr)
    · intro _ r hr _
      exact locationRules_label r hr
  · intro tweet hbody hplace
    obtain ⟨evs, htrace, hcase⟩ := checkTweet_label w tweet cfg api s
    refine ⟨evs, htrace, ?_⟩
    rcases hcase with ⟨h1, h2, _, _⟩ | ⟨p, l, _, _, hrule⟩
    · exact ⟨h1, h2⟩
    · exfalso
      rcases hrule with ⟨hin, hhit⟩ | ⟨hin, hhit, _⟩
      · exact hbody _ hin hhit
      · exact hplace _ hin hhit

set_option maxRecDepth 100000 in
/-- C4 at four concrete mentions, visiting the tables from their fifth
entry (wrapping around). -/
theorem checkTweet_classifies_spec_examples_witness :
    (∃ evs, (checkTweet (sampleWorld 4 false [] [] []) (mention "1" "Go NASCAR!" 42 "fan")
        sampleConfig sampleApi sampleState).state.trace = sampleState.trace ++ evs ∧
      evs.filter (fun e => e.kind == Kind.blockUserCalled) =
        [Event.blockUserCalled (mention "1" "Go NASCAR!" 42 "fan") "dennyhamlin"]) ∧
    (∃ evs, (checkTweet (sampleWorld 4 false [] [] [])
        (mention "2" "I love @Denny's breakfast" 42 "fan")
        sampleConfig sampleApi sampleState).state.trace = sampleState.trace ++ evs ∧
      evs.filter (fun e => e.kind == Kind.blockUserCalled) =
        [Event.blockUserCalled (mention "2" "I love @Denny's breakfast" 42 "fan")
          "dennysdiner"]) ∧
    (∃ evs, (checkTweet (sampleWorld 4 false [] [] [])
        ⟨"3", "good morning", ⟨42, "fan"⟩, ⟨"Indonesia", "", ""⟩⟩
        sampleConfig sampleApi sampleState).state.trace = sampleState.trace ++ evs ∧
      evs.filter (fun e => e.kind == Kind.blockUserCalled) =
        [Event.blockUserCalled ⟨"3", "good morning", ⟨42, "fan"⟩, ⟨"Indonesia", "", ""⟩⟩
          "indonesia"]) ∧
    (∃ evs, (checkTweet (sampleWorld 4 false [] [] [])
        ⟨"4", "good morning", ⟨42, "fan"⟩, ⟨"France", "Paris", "Paris, France"⟩⟩
        sampleConfig sampleApi sampleState).state.trace = sampleState.trace ++ evs ∧
      evs.filter (fun e => e.kind == Kind.blockUserCalled) = [] ∧
      ∀ e ∈ evs, e.kind ≠ Kind.blockUserId) :=
  ⟨(checkTweet_classifies_spec_examples (sampleWorld 4 false [] [] []) sampleConfig sampleApi
      sampleState).1 (mention "1" "Go NASCAR!" 42 "fan") rfl,
    (checkTweet_classifies_spec_examples (sampleWorld 4 false [] [] []) sampleConfig sampleApi
      sampleState).2.1 (mention "2" "I love @Denny's breakfast" 42 "fan") rfl,
    ((checkTweet_classifies_spec_examples (sampleWorld 4 false [] [] []) sampleConfig
      sampleApi sampleState).2.2.1
      ⟨"3", "good morning", ⟨42, "fan"⟩, ⟨"Indonesia", "", ""⟩⟩ (by decide!) rfl).2,
    (checkTweet_classifies_spec_examples (sampleWorld 4 false [] [] []) sampleConfig sampleApi
      sampleState).2.2.2
      ⟨"4", "good morning", ⟨42, "fan"⟩, ⟨"France", "Paris", "Paris, France"⟩⟩
      (by decide!) (by decide!)⟩

/-- C10.  For every visiting order of the two tables, a call of
`checkTweet` issues a block request if and only if some text rule matches
the body or some location rule matches
`Country + " " + Name + " " + FullName`; and when no text rule matches the
body, every label `blockUser` is called with is "indonesia", and it is
called with it exactly once when a location rule matches. -/
theorem checkTweet_block_independent_of_range_order (w : World) (tweet : Tweet)
    (cfg : Config) (api : TwitterApi) (s : State) :
    ∃ evs, (checkTweet w tweet cfg api s).state.trace = s.trace ++ evs ∧
      ((∃ e ∈ evs, e.kind = Kind.blockUserId) ↔
        ((∃ r ∈ textRules, MatchString r.1 tweet.Text = .ok true) ∨
          (∃ r ∈ locationRules, MatchString r.1
            (tweet.Place.Country ++ " " ++ tweet.Place.Name ++ " " ++ tweet.Place.FullName) =
              .ok true))) ∧
      ((∀ r ∈ textRules, MatchString r.1 tweet.Text ≠ .ok true) →
        ∀ t l, Event.blockUserCalled t l ∈ evs → l = "indonesia") ∧
      ((∀ r ∈ textRules, MatchString r.1 tweet.Text ≠ .ok true) →
        (∃ r ∈ locationRules, MatchString r.1
          (tweet.Place.Country ++ " " ++ tweet.Place.Name ++ " " ++ tweet.Place.FullName) =
            .ok true) →
        evs.filter (fun e => e.kind == Kind.blockUserCalled) =
          [Event.blockUserCalled tweet "indonesia"]) := by
  obtain ⟨evs, htrace, hcase⟩ := checkTweet_label w tweet cfg api s
  refine ⟨evs, htrace, ?_, ?_, ?_⟩
  rotate_left 2
  · intro hbody hplace
    rcases hcase with ⟨_, _, _, hallL⟩ | ⟨p, l, hcalls, _, hrule⟩
    · obtain ⟨r, hr, hhit⟩ := hplace
      have := hallL r hr
      rw [locationOf, hhit] at this
      cases this
    · rcases hrule with ⟨hin, hhit⟩ | ⟨hin, _, _⟩
      · exact absurd hhit (hbody _ hin)
      · rw [hcalls, show l = "indonesia" from locationRules_label (p, l) hin]
  · rcases hcase with ⟨_, hnone, hallT, hallL⟩ | ⟨p, l, _, hblock, hrule⟩
    · constructor
      · rintro ⟨e, he, hk⟩
        exact absurd hk (hnone e he)
      · rintro (⟨r, hr, hhit⟩ | ⟨r, hr, hhit⟩)
        · rw [hallT r hr] at hhit; cases hhit
        · have := hallL r hr
          rw [locationOf, hhit] at this
          cases this
    · refine ⟨fun _ => ?_, fun _ => hblock⟩
      rcases hrule with ⟨hin, hhit⟩ | ⟨hin, hhit, _⟩
      · exact Or.inl ⟨(p, l), hin, hhit⟩
      · exact Or.inr ⟨(p, l), hin, hhit⟩
  · intro hbody t l' hin
    have hmem : Event.blockUserCalled t l' ∈
        evs.filter (fun e => e.kind == Kind.blockUserCalled) :=
      List.mem_filter.2 ⟨hin, by simp [Event.kind]⟩
    rcases hcase with ⟨hnil, _, _, _⟩ | ⟨p, l, hcalls, _, hrule⟩
    · rw [hnil] at hmem
      cases hmem
    · rw [hcalls, List.mem_singleton] at hmem
      injection hmem with _ hl
      subst hl
      rcases hrule with ⟨hin, hhit⟩ | ⟨hin, _, _⟩
      · exact absurd hhit (hbody _ hin)
      · exact locationRules_label _ hin

set_option maxRecDepth 100000 in
/-- C3, counterexample.  The API reports friends `[7]`, followers `[8]` and
two mentions by the strangers 42 and 43, and refuses the block request.
The first mention matches `(?i)NASCAR`, the refused block ends the process,
and `checkTweet` is never invoked for the second mention although its
author is in neither set. -/
theorem main_skips_mentions_after_fatal :
    (43 : Int) ∉ [7] ∧ (43 : Int) ∉ [8] ∧
    (main (sampleWorld 0 true [7] [8]
      [mention "1" "Go NASCAR!" 42 "fan", mention "2" "NASCAR again" 43 "other"])).isFatal =
        true ∧
    Event.checkTweetCalled (mention "1" "Go NASCAR!" 42 "fan") ∈
      (main (sampleWorld 0 true [7] [8]
        [mention "1" "Go NASCAR!" 42 "fan",
          mention "2" "NASCAR again" 43 "other"])).state.trace ∧
    Event.checkTweetCalled (mention "2" "NASCAR again" 43 "other") ∉
      (main (sampleWorld 0 true [7] [8]
        [mention "1" "Go NASCAR!" 42 "fan",
          mention "2" "NASCAR again" 43 "other"])).state.trace := by
  decide!

/-- C3, amended.  The loop of `main` handles a prefix of the mentions, all
of them unless the process ends in a fatal error.  The events of the loop
are the events of the handled mentions, one after the other: for a mention
whose author is among the friends or the followers only the display line
(no call of `checkTweet`, hence no block, post or mail); for any other
handled mention the display line and then exactly one call of
`checkTweet`. -/
theorem mentionsLoop_checks_only_strangers (w : World) (cfg : Config) (api : TwitterApi)
    (friends followers : List Int) (mentions : List Tweet) (s : State) :
    ∃ handled segs,
      handled <+: mentions ∧
      ((mentionsLoop w cfg api (markIds friends (fun _ => false))
        (markIds followers (fun _ => false)) mentions s).isFatal = false →
          handled = mentions) ∧
      (mentionsLoop w cfg api (markIds friends (fun _ => false))
        (markIds followers (fun _ => false)) mentions s).state.trace =
          s.trace ++ segs.flatten ∧
      List.Forall₂ (fun tweet seg =>
        if tweet.User.Id ∈ friends ∨ tweet.User.Id ∈ followers then
          seg = [Event.println ("<" ++ tweet.User.ScreenName ++ ">" ++ " " ++ tweet.Text)]
        else
          ∃ rest, seg =
              Event.println ("<" ++ tweet.User.ScreenName ++ ">" ++ " " ++ tweet.Text) ::
                Event.checkTweetCalled tweet :: rest ∧
            ∀ e ∈ rest, e.kind ≠ Kind.checkTweetCalled) handled segs := by
  induction mentions generalizing s with
  | nil => exact ⟨[], [], List.nil_prefix, fun _ => rfl, by simp [mentionsLoop, Outcome.state],
      List.Forall₂.nil⟩
  | cons tweet rest ih =>
    by_cases hex : tweet.User.Id ∈ friends ∨ tweet.User.Id ∈ followers
    · have hcond : (!markIds friends (fun _ => false) tweet.User.Id &&
          !markIds followers (fun _ => false) tweet.User.Id) = false := by
        rcases hex with h | h
        · have := (markIds_eq_true friends (fun _ => false) tweet.User.Id).2 (Or.inl h)
          simp [this]
        · have := (markIds_eq_true followers (fun _ => false) tweet.User.Id).2 (Or.inl h)
          simp [this]
      have hstep : mentionsLoop w cfg api (markIds friends (fun _ => false))
          (markIds followers (fun _ => false)) (tweet :: rest) s =
          mentionsLoop w cfg api (markIds friends (fun _ => false))
            (markIds followers (fun _ => false)) rest
            (s.emit (.println ("<" ++ tweet.User.ScreenName ++ ">" ++ " " ++ tweet.Text))) := by
        rw [mentionsLoop]
        simp only [hcond, Bool.false_eq_true, if_false]
      obtain ⟨handled, segs, h1, h2, h3, h4⟩ :=
        ih (s.emit (.println ("<" ++ tweet.User.ScreenName ++ ">" ++ " " ++ tweet.Text)))
      refine ⟨tweet :: handled,
        [Event.println ("<" ++ tweet.User.ScreenName ++ ">" ++ " " ++ tweet.Text)] :: segs,
        (List.prefix_cons_inj tweet).2 h1, ?_, ?_, List.Forall₂.cons (by simp [hex]) h4⟩
      · rw [hstep]
        intro h
        rw [h2 h]
      · rw [hstep, h3]
        simp [State.emit]
    · have hcond : (!markIds friends (fun _ => false) tweet.User.Id &&
          !markIds followers (fun _ => false) tweet.User.Id) = true := by
        have hf : markIds friends (fun _ => false) tweet.User.Id = false := by
          cases hm : markIds friends (fun _ => false) tweet.User.Id with
          | false => rfl
          | true =>
            rcases (markIds_eq_true _ _ _).1 hm with h | h
            · exact absurd (Or.inl h) hex
            · cases h
        have hg : markIds followers (fun _ => false) tweet.User.Id = false := by
          cases hm : markIds followers (fun _ => false) tweet.User.Id with
          | false => rfl
          | true =>
            rcases (markIds_eq_true _ _ _).1 hm with h | h
            · exact absurd (Or.inr h) hex
            · cases h
        simp [hf, hg]
      obtain ⟨evs, hseg, hnone⟩ := checkTweet_segment w tweet cfg api
        (s.emit (.println ("<" ++ tweet.User.ScreenName ++ ">" ++ " " ++ tweet.Text)))
      cases hct : checkTweet w tweet cfg api
        (s.emit (.println ("<" ++ tweet.User.ScreenName ++ ">" ++ " " ++ tweet.Text))) with
      | fatal msg s1 =>
        have hstep : mentionsLoop w cfg api (markIds friends (fun _ => false))
            (markIds followers (fun _ => false)) (tweet :: rest) s = .fatal msg s1 := by
          rw [mentionsLoop]
          simp only [hcond, if_true, hct]
        rw [hct] at hseg
        refine ⟨[tweet],
          [Event.println ("<" ++ tweet.User.ScreenName ++ ">" ++ " " ++ tweet.Text) ::
            Event.checkTweetCalled tweet :: evs],
          (List.prefix_cons_inj tweet).2 List.nil_prefix, ?_, ?_,
          List.Forall₂.cons (by simp only [hex, if_false]; exact ⟨evs, rfl, hnone⟩)
            List.Forall₂.nil⟩
        · rw [hstep]
          intro h
          cases h
        · rw [hstep]
          simp only [Outcome.state] at hseg ⊢
          rw [hseg]
          simp [State.emit]
      | ok v s1 =>
        have hstep : mentionsLoop w cfg api (markIds friends (fun _ => false))
            (markIds followers (fun _ => false)) (tweet :: rest) s =
            mentionsLoop w cfg api (markIds friends (fun _ => false))
              (markIds followers (fun _ => false)) rest s1 := by
          rw [mentionsLoop]
          simp only [hcond, if_true, hct]
        rw [hct] at hseg
        obtain ⟨handled, segs, h1, h2, h3, h4⟩ := ih s1
        refine ⟨tweet :: handled,
          (Event.println ("<" ++ tweet.User.ScreenName ++ ">" ++ " " ++ tweet.Text) ::
            Event.checkTweetCalled tweet :: evs) :: segs,
          (List.prefix_cons_inj tweet).2 h1, ?_, ?_,
          List.Forall₂.cons (by simp only [hex, if_false]; exact ⟨evs, rfl, hnone⟩) h4⟩
        · rw [hstep]
          intro h
          rw [h2 h]
        · rw [hstep, h3]
          simp only [Outcome.state] at hseg
          rw [hseg]
          simp [State.emit]

end MentionsManager
